import Mathlib

/-!
# A shallow embedding of the agent memory store

This file embeds the core of the `agent_mem_db` crate — the episode data
model (`src/lib.rs`), the vector index backends (`src/index.rs`), the
in-memory store `AgentMemDB` (`src/lib.rs`) and the disk-backed store
`AgentMemDBDisk` (`src/disk.rs`) — and proves properties of the embedded
operations.

Modelling conventions, used throughout:

* Rust `f32` values (embedding coordinates, rewards, distances) are
  modelled by exact integers (`Int`).  The program only adds,
  subtracts, multiplies and compares these values; it never divides and
  never exposes a distance to the caller.  IEEE rounding, infinities and
  NaN are outside the model; where the source uses `partial_cmp(..)
  .unwrap_or(Equal)` (NaN-tolerant comparison) the model uses the
  corresponding total comparison.
* `l2_distance` in the source is `sqrt(Σ (aᵢ−bᵢ)²)`.  Distances are only
  ever compared with each other and the square root is strictly monotone
  on the nonnegative reals, so the model works with the squared distance
  (`l2_distance_sq`) throughout; every comparison agrees with the source.
* Rust `String` values are modelled as `List Char`, so that equality,
  containment and whole-word tests compute by structural recursion.
* Rust `HashMap` is modelled as an association list with insert-replaces
  semantics (`hmInsert` / `hmGet`).  The iteration order of a Rust
  `HashMap` is unspecified (seed-randomised); operations of the source
  that iterate a map (`save_to_file`, the prune drains) are therefore
  either parametrised by the emitted order or documented as using the
  association-list order where the property proved does not depend on it.
* `uuid::Uuid` (128-bit random ids) is modelled as `Nat`; the id is a
  caller-supplied parameter of `Episode.new` instead of a random draw.
* Rust `sort_by` is a stable sort; the model uses `List.insertionSort`
  (also stable) with the relation "comparator does not say Greater",
  which produces the identical list for any total preorder.
* File I/O errors and `fsync` are outside the model: the disk store's
  log, checkpoint file and `meta.json` are carried as fields of the
  state, and each log line holds the episode it encodes (serialisation
  is modelled as the identity, one list entry per line; the code never
  writes blank lines, so the non-empty-line count is the list length).
-/

/-- Rust `String` / `&str`, modelled as a list of characters. -/
abbrev RStr := List Char

/-- `i64::MIN`, the sentinel the source substitutes for an absent
timestamp when sorting (`unwrap_or(i64::MIN)`). -/
def i64Min : Int := -(2 ^ 63)

/-- Rust `a.partial_cmp(&b).unwrap_or(Ordering::Equal)` on model-f32
values.  In the model no NaN exists, so the comparison is total. -/
def pcmp (a b : Int) : Ordering :=
  if a < b then .lt else if b < a then .gt else .eq

/-- Rust `i64::cmp`. -/
def icmp (a b : Int) : Ordering :=
  if a < b then .lt else if b < a then .gt else .eq

/-- `HashMap::insert`: replace the value under an existing key, else
append the new binding. -/
def hmInsert {β : Type} : List (Nat × β) → Nat → β → List (Nat × β)
  | [], k, v => [(k, v)]
  | (k', v') :: rest, k, v =>
    if k' = k then (k, v) :: rest else (k', v') :: hmInsert rest k v

/-- `HashMap::get`. -/
def hmGet {β : Type} : List (Nat × β) → Nat → Option β
  | [], _ => none
  | (k', v) :: rest, k => if k' = k then some v else hmGet rest k

/-- Rust `str::starts_with` on modelled strings. -/
def rstrStartsWith (s p : RStr) : Bool :=
  match s, p with
  | _, [] => true
  | [], _ :: _ => false
  | c :: s', d :: p' => c = d && rstrStartsWith s' p'

/-- A single step in an agent trajectory (`EpisodeStep`, lib.rs). -/
structure EpisodeStep where
  index : Nat
  action : RStr
  observation : RStr
  step_reward : Int
deriving DecidableEq

/-- A recorded agent experience (`Episode`, lib.rs).  `metadata` is an
arbitrary JSON value in the source; no operation of the core ever reads
it, so the model carries it as an opaque optional string. -/
structure Episode where
  id : Nat
  task_id : RStr
  state_embedding : List Int
  reward : Int
  metadata : Option RStr
  steps : Option (List EpisodeStep)
  timestamp : Option Int
  tags : Option (List RStr)
  source : Option RStr
  user_id : Option RStr
deriving DecidableEq

/-- `Episode::new` (lib.rs): fresh episode with empty metadata.  The
source draws a random UUID v4; the model takes the id as a parameter. -/
def Episode.new (id : Nat) (task_id : RStr) (state_embedding : List Int)
    (reward : Int) : Episode :=
  { id := id, task_id := task_id, state_embedding := state_embedding,
    reward := reward, metadata := none, steps := none, timestamp := none,
    tags := none, source := none, user_id := none }

/-- Query options for similarity search (`QueryOptions`, lib.rs).  The
source field `task_id_prefix` is named `task_id_pre` here. -/
structure QueryOptions where
  min_reward : Int
  top_k : Nat
  tags_any : Option (List RStr)
  tags_all : Option (List RStr)
  task_id_pre : Option RStr
  time_after : Option Int
  time_before : Option Int
  source : Option RStr
  user_id : Option RStr
deriving DecidableEq

/-- `QueryOptions::new` (lib.rs): min_reward and top_k only, every
filter absent. -/
def QueryOptions.new (min_reward : Int) (top_k : Nat) : QueryOptions :=
  { min_reward := min_reward, top_k := top_k, tags_any := none,
    tags_all := none, task_id_pre := none, time_after := none,
    time_before := none, source := none, user_id := none }

/-- `QueryOptions::matches` (lib.rs:228-278), the filter bundle, as a
conjunction of the source's early-return guards in source order. -/
def QueryOptions.matches (o : QueryOptions) (ep : Episode) : Bool :=
  !(decide (ep.reward < o.min_reward)) &&
  (match o.tags_any with
   | none => true
   | some tags => tags.any (fun t => (ep.tags.getD []).contains t)) &&
  (match o.tags_all with
   | none => true
   | some tags => tags.all (fun t => (ep.tags.getD []).contains t)) &&
  (match o.task_id_pre with
   | none => true
   | some p => rstrStartsWith ep.task_id p) &&
  (match o.time_after with
   | none => true
   | some ts => match ep.timestamp with
     | some ep_ts => !(decide (ep_ts < ts))
     | none => false) &&
  (match o.time_before with
   | none => true
   | some ts => match ep.timestamp with
     | some ep_ts => !(decide (ep_ts > ts))
     | none => false) &&
  (match o.source with
   | none => true
   | some s => ep.source == some s) &&
  (match o.user_id with
   | none => true
   | some u => ep.user_id == some u)

/-- Squared Euclidean distance (`l2_distance`, index.rs:6-12, without
the final `sqrt`; see the header comment on why the square suffices). -/
def l2_distance_sq (a b : List Int) : Int :=
  ((a.zip b).map (fun p => (p.1 - p.2) * (p.1 - p.2))).foldl (· + ·) 0

/-- Exact (brute-force) vector index (`ExactIndex`, index.rs). -/
structure ExactIndex where
  vectors : List (List Int)
deriving DecidableEq

def ExactIndex.new : ExactIndex := ⟨[]⟩

/-- `ExactIndex::from_vectors`: keys are `0..vectors.len()`. -/
def ExactIndex.from_vectors (vectors : List (List Int)) : ExactIndex := ⟨vectors⟩

def ExactIndex.len (idx : ExactIndex) : Nat := idx.vectors.length

/-- `ExactIndex::insert`: push the vector, return its 0-based position. -/
def ExactIndex.insert (idx : ExactIndex) (v : List Int) : Nat × ExactIndex :=
  (idx.vectors.length, ⟨idx.vectors ++ [v]⟩)

/-- The sort relation of `ExactIndex::search`: `(key, distance)` pairs
ascending by distance, NaN-tolerant comparison, stable. -/
def distLe (a b : Nat × Int) : Prop := pcmp a.2 b.2 ≠ Ordering.gt

instance : DecidableRel distLe :=
  fun a b => inferInstanceAs (Decidable (pcmp a.2 b.2 ≠ Ordering.gt))

/-- `ExactIndex::search` (index.rs:46-56): distance to every stored
vector, stable sort ascending by distance, truncate to `k`. -/
def ExactIndex.search (idx : ExactIndex) (q : List Int) (k : Nat) : List (Nat × Int) :=
  ((((List.range idx.vectors.length).zip
      (idx.vectors.map (fun v => l2_distance_sq q v))).insertionSort distLe).take k)

/-- A choice function standing for the approximate search of the
external HNSW library: given the stored vectors, the query and `k`, it
picks the keys the search returns. -/
abbrev SearchOracle := List (List Int) → List Int → Nat → List Nat

/-- Modelled from the spec: `HnswIndex` (index.rs:60-96) wraps the
external `hnswx` HNSW library, whose sources are not in this
repository.  Per spec §4.3 the index exposes `insert(v) -> key` and
`search(q, k) -> [(key, distance)]` with Euclidean distances, keys are
opaque integers, and search is approximate (an implementation-chosen
candidate set).  The model keeps the inserted vectors; each insert
returns the key under which its vector is retrievable (realised as
consecutive integers), and search returns the keys an arbitrary
`SearchOracle` chooses, each paired with the true distance of its
vector.  Per spec §4.3/§9 the capacity `max_elements` is enforced by
the library: an insertion beyond it fails (no auto-grow), and the
error propagates; the model's insert returns `none` at capacity. -/
structure HnswIndex where
  max_elements : Nat
  vectors : List (List Int)
deriving DecidableEq

def HnswIndex.new (max_elements : Nat) : HnswIndex := ⟨max_elements, []⟩

def HnswIndex.insert (idx : HnswIndex) (v : List Int) : Option (Nat × HnswIndex) :=
  if idx.vectors.length < idx.max_elements then
    some (idx.vectors.length, ⟨idx.max_elements, idx.vectors ++ [v]⟩)
  else
    none

def HnswIndex.search (orc : SearchOracle) (idx : HnswIndex) (q : List Int)
    (k : Nat) : List (Nat × Int) :=
  (orc idx.vectors q k).filterMap
    (fun key => (idx.vectors[key]?).map (fun v => (key, l2_distance_sq q v)))

/-- Pluggable index backend (`IndexBackend`, index.rs:99-125). -/
inductive IndexBackend where
  | hnsw (idx : HnswIndex)
  | exact (idx : ExactIndex)
deriving DecidableEq

def IndexBackend.insert : IndexBackend → List Int → Option (Nat × IndexBackend)
  | .hnsw idx, v => (idx.insert v).map (fun r => (r.1, .hnsw r.2))
  | .exact idx, v => some ((idx.insert v).1, .exact (idx.insert v).2)

def IndexBackend.len : IndexBackend → Nat
  | .hnsw idx => idx.vectors.length
  | .exact idx => idx.len

def IndexBackend.search (orc : SearchOracle) : IndexBackend → List Int → Nat → List (Nat × Int)
  | .hnsw idx, q, k => HnswIndex.search orc idx q k
  | .exact idx, q, k => idx.search q k

/-- The stored vectors of either backend (both variants hold one vector
per insert). -/
def IndexBackend.vecs : IndexBackend → List (List Int)
  | .hnsw idx => idx.vectors
  | .exact idx => idx.vectors

/-- `AgentMemError` (lib.rs:303-312).  Error message strings are not
modelled. -/
inductive AgentMemError where
  | dimensionMismatch (expected got : Nat)
  | hnswError
  | notFound
deriving DecidableEq

instance {ε α : Type} [DecidableEq ε] [DecidableEq α] : DecidableEq (Except ε α) :=
  fun x y =>
  match x, y with
  | .ok a, .ok b =>
    if h : a = b then isTrue (by rw [h]) else isFalse (fun hh => by cases hh; exact h rfl)
  | .error a, .error b =>
    if h : a = b then isTrue (by rw [h]) else isFalse (fun hh => by cases hh; exact h rfl)
  | .ok _, .error _ => isFalse (fun hh => by cases hh)
  | .error _, .ok _ => isFalse (fun hh => by cases hh)

/-- In-memory store (`AgentMemDB`, lib.rs:296-301). -/
structure AgentMemDB where
  dim : Nat
  episodes : List (Nat × Episode)
  index : IndexBackend
  key_to_uuid : List (Nat × Nat)
deriving DecidableEq

/-- `AgentMemDB::new_with_max_elements`. -/
def AgentMemDB.new_with_max_elements (dim max_elements : Nat) : AgentMemDB :=
  { dim := dim, episodes := [], index := .hnsw (HnswIndex.new max_elements),
    key_to_uuid := [] }

/-- `AgentMemDB::new`: HNSW backend with capacity 20 000. -/
def AgentMemDB.new (dim : Nat) : AgentMemDB :=
  AgentMemDB.new_with_max_elements dim 20000

/-- `AgentMemDB::new_exact`: exact brute-force backend. -/
def AgentMemDB.new_exact (dim : Nat) : AgentMemDB :=
  { dim := dim, episodes := [], index := .exact ExactIndex.new, key_to_uuid := [] }

/-- `AgentMemDB::store_episode` (lib.rs:357-369).  The Rust method
mutates `&mut self` and returns `Result<()>`; the model returns the
status together with the post-state (unchanged on error, exactly as the
source returns before any mutation).  Per spec §4.3/§9 an index insert
beyond the HNSW capacity fails and the library error propagates
(`HnswError`) before the two maps are touched. -/
def AgentMemDB.store_episode (s : AgentMemDB) (episode : Episode) :
    Except AgentMemError Unit × AgentMemDB :=
  if episode.state_embedding.length ≠ s.dim then
    (.error (.dimensionMismatch s.dim episode.state_embedding.length), s)
  else
    match s.index.insert episode.state_embedding with
    | none => (.error .hnswError, s)
    | some (key, index') =>
      (.ok (), { s with
        index := index',
        key_to_uuid := hmInsert s.key_to_uuid key episode.id,
        episodes := hmInsert s.episodes episode.id episode })

/-- `AgentMemDB::store_episodes` (lib.rs:458-463): sequential fold,
fail-fast on the first error. -/
def AgentMemDB.store_episodes (s : AgentMemDB) :
    List Episode → Except AgentMemError Unit × AgentMemDB
  | [] => (.ok (), s)
  | ep :: rest =>
    match s.store_episode ep with
    | (.ok _, s') => s'.store_episodes rest
    | (.error e, s') => (.error e, s')

/-- The timestamp key used by every sort of the source:
`timestamp.unwrap_or(i64::MIN)`. -/
def tsKey (ep : Episode) : Int := ep.timestamp.getD i64Min

/-- The candidate comparator of `AgentMemDB::query_similar_with_options`
(lib.rs:435-443): distance ascending (NaN-tolerant), ties broken by
timestamp descending with absent timestamps replaced by `i64::MIN`. -/
def cmpCand (a b : Int × Episode) : Ordering :=
  match pcmp a.1 b.1 with
  | .eq => icmp (tsKey b.2) (tsKey a.2)
  | o => o

def candLe (a b : Int × Episode) : Prop := cmpCand a b ≠ Ordering.gt

instance : DecidableRel candLe :=
  fun a b => inferInstanceAs (Decidable (cmpCand a b ≠ Ordering.gt))

/-- The oversampling multiplier of `AgentMemDB::query_similar_with_options`
(lib.rs:409-420): 4 when any structural filter is set, else 2. -/
def candidateMult (opts : QueryOptions) : Nat :=
  if opts.tags_any.isSome || opts.tags_all.isSome || opts.task_id_pre.isSome ||
     opts.time_after.isSome || opts.time_before.isSome || opts.source.isSome ||
     opts.user_id.isSome then 4 else 2

/-- Key resolution shared by both stores: key → uuid → episode, dropping
keys with no mapping (defensive cleanup in the source). -/
def resolveKey (key_to_uuid : List (Nat × Nat)) (episodes : List (Nat × Episode))
    (key : Nat) : Option Episode :=
  (hmGet key_to_uuid key).bind (fun uuid => hmGet episodes uuid)

/-- The post-search pipeline of `AgentMemDB::query_similar_with_options`
(lib.rs:424-449): resolve each `(key, dist)` pair, keep matches paired
with their distance, stable-sort by the candidate comparator, truncate
to `top_k`, drop the distances. -/
def memPost (s : AgentMemDB) (opts : QueryOptions) (results : List (Nat × Int)) :
    List Episode :=
  let candidates : List (Int × Episode) := results.filterMap (fun r =>
    (resolveKey s.key_to_uuid s.episodes r.1).bind (fun ep =>
      if opts.matches ep then some (r.2, ep) else none))
  (((candidates.insertionSort candLe).take opts.top_k).map (fun c => c.2))

/-- `AgentMemDB::query_similar_with_options` (lib.rs:398-450). -/
def AgentMemDB.query_similar_with_options (orc : SearchOracle) (s : AgentMemDB)
    (query_embedding : List Int) (opts : QueryOptions) :
    Except AgentMemError (List Episode) :=
  if query_embedding.length ≠ s.dim then
    .error (.dimensionMismatch s.dim query_embedding.length)
  else
    .ok (memPost s opts
      (s.index.search orc query_embedding (opts.top_k * candidateMult opts)))

/-- `AgentMemDB::query_similar` (lib.rs:388-395). -/
def AgentMemDB.query_similar (orc : SearchOracle) (s : AgentMemDB)
    (query_embedding : List Int) (min_reward : Int) (top_k : Nat) :
    Except AgentMemError (List Episode) :=
  s.query_similar_with_options orc query_embedding (QueryOptions.new min_reward top_k)

/-- The JSON shape written by `save_to_file` (`PersistedDB`, lib.rs). -/
structure PersistedDB where
  dim : Nat
  episodes : List Episode
deriving DecidableEq

/-- `AgentMemDB::save_to_file` (lib.rs:483-494): serialise
`{dim, episodes}` where the episode list is `self.episodes.values()` in
the Rust `HashMap`'s unspecified iteration order; the model takes the
emitted order as a parameter, constrained in the theorems to be a
permutation of the stored values. -/
def AgentMemDB.save_to_file (s : AgentMemDB) (order : List Episode) : PersistedDB :=
  { dim := s.dim, episodes := order }

/-- `AgentMemDB::load_from_file_with_index` (lib.rs:613-629): build a
fresh store of the persisted `dim` and re-insert every episode through
`store_episode`. -/
def AgentMemDB.load_from_file_with_index (p : PersistedDB) (use_exact : Bool) :
    Except AgentMemError AgentMemDB :=
  let db := if use_exact then AgentMemDB.new_exact p.dim else AgentMemDB.new p.dim
  match db.store_episodes p.episodes with
  | (.ok _, db') => .ok db'
  | (.error _, _) => .error .hnswError

/-- `AgentMemDB::load_from_file_exact` (lib.rs:502-504). -/
def AgentMemDB.load_from_file_exact (p : PersistedDB) : Except AgentMemError AgentMemDB :=
  AgentMemDB.load_from_file_with_index p true

/-- `meta.json` (`DiskMeta`, disk.rs:19-26). -/
structure DiskMeta where
  dim : Nat
  index_type : RStr
  max_elements : Nat
  checkpoint_line_count : Option Nat
deriving DecidableEq

/-- Options for opening a disk-backed DB (`DiskOptions`, disk.rs). -/
structure DiskOptions where
  dim : Nat
  index_type : Option RStr
  max_elements : Nat
  use_checkpoint : Bool
deriving DecidableEq

def DiskOptions.hnsw (dim max_elements : Nat) : DiskOptions :=
  { dim := dim, index_type := some "hnsw".data, max_elements := max_elements,
    use_checkpoint := false }

def DiskOptions.exact (dim : Nat) : DiskOptions :=
  { dim := dim, index_type := some "exact".data, max_elements := 0,
    use_checkpoint := false }

def DiskOptions.exact_with_checkpoint (dim : Nat) : DiskOptions :=
  { dim := dim, index_type := some "exact".data, max_elements := 0,
    use_checkpoint := true }

/-- Disk-backed store (`AgentMemDBDisk`, disk.rs:37-46).  The on-disk
directory is part of the state: `log` is `episodes.jsonl` (one entry per
non-empty line), `checkpointFile` is `exact_checkpoint.json` (its parsed
episode list) or `none` when the file does not exist, and `meta` is
`meta.json`.  The `path` and open file handle of the source are not
modelled. -/
structure AgentMemDBDisk where
  dim : Nat
  episodes : List (Nat × Episode)
  index : IndexBackend
  key_to_uuid : List (Nat × Nat)
  log : List Episode
  checkpointFile : Option (List Episode)
  meta : DiskMeta
  use_checkpoint : Bool
deriving DecidableEq

/-- `AgentMemDBDisk::open_with_options` (disk.rs:56-143) on a directory
that does not yet exist (no `meta.json`, no log): construct the index
per `opts.index_type`, write a fresh `meta.json` and start empty.
Opening an existing directory (replay / checkpoint load) is not needed
by the properties below and is not modelled. -/
def AgentMemDBDisk.open_fresh (opts : DiskOptions) : AgentMemDBDisk :=
  let index : IndexBackend := match opts.index_type with
    | some t => if t = "exact".data then .exact ExactIndex.new
                else .hnsw (HnswIndex.new opts.max_elements)
    | none => .hnsw (HnswIndex.new opts.max_elements)
  { dim := opts.dim, episodes := [], index := index, key_to_uuid := [],
    log := [], checkpointFile := none,
    meta := { dim := opts.dim,
              index_type := opts.index_type.getD "hnsw".data,
              max_elements := opts.max_elements,
              checkpoint_line_count := none },
    use_checkpoint := opts.use_checkpoint }

/-- `AgentMemDBDisk::store_episode` (disk.rs:283-303): dimension check,
append one serialised line to the log, then insert into the index and
the maps.  I/O failures are outside the model.  Per spec §4.3/§9 an
index insert beyond the HNSW capacity fails and the error propagates;
the log line was already written (the source appends before the
insert), the in-memory maps are untouched. -/
def AgentMemDBDisk.store_episode (s : AgentMemDBDisk) (episode : Episode) :
    Except AgentMemError Unit × AgentMemDBDisk :=
  if episode.state_embedding.length ≠ s.dim then
    (.error (.dimensionMismatch s.dim episode.state_embedding.length), s)
  else
    match s.index.insert episode.state_embedding with
    | none => (.error .hnswError, { s with log := s.log ++ [episode] })
    | some (key, index') =>
      (.ok (), { s with
        log := s.log ++ [episode],
        index := index',
        key_to_uuid := hmInsert s.key_to_uuid key episode.id,
        episodes := hmInsert s.episodes episode.id episode })

/-- Sequential fold of `store_episode` over a list, fail-fast (used to
build disk states). -/
def AgentMemDBDisk.store_episodes (s : AgentMemDBDisk) :
    List Episode → Except AgentMemError Unit × AgentMemDBDisk
  | [] => (.ok (), s)
  | ep :: rest =>
    match s.store_episode ep with
    | (.ok _, s') => s'.store_episodes rest
    | (.error e, s') => (.error e, s')

/-- The oversampling multiplier of
`AgentMemDBDisk::query_similar_with_options` (disk.rs:327-332): gated
only on tags_any / time_after / time_before. -/
def candidateMultDisk (opts : QueryOptions) : Nat :=
  if opts.tags_any.isSome || opts.time_after.isSome || opts.time_before.isSome
  then 4 else 2

/-- The post-search pipeline of
`AgentMemDBDisk::query_similar_with_options` (disk.rs:336-347): resolve
keys (dropping the distances), filter by `matches`, take `top_k`.  Note
the absence of the memory store's re-sort. -/
def diskPost (s : AgentMemDBDisk) (opts : QueryOptions)
    (results : List (Nat × Int)) : List Episode :=
  (((results.filterMap (fun r => resolveKey s.key_to_uuid s.episodes r.1)).filter
      (fun ep => opts.matches ep)).take opts.top_k)

/-- `AgentMemDBDisk::query_similar_with_options` (disk.rs:316-348). -/
def AgentMemDBDisk.query_similar_with_options (orc : SearchOracle)
    (s : AgentMemDBDisk) (query_embedding : List Int) (opts : QueryOptions) :
    Except AgentMemError (List Episode) :=
  if query_embedding.length ≠ s.dim then
    .error (.dimensionMismatch s.dim query_embedding.length)
  else
    .ok (diskPost s opts
      (s.index.search orc query_embedding (opts.top_k * candidateMultDisk opts)))

/-- `AgentMemDBDisk::query_similar` (disk.rs:306-313). -/
def AgentMemDBDisk.query_similar (orc : SearchOracle) (s : AgentMemDBDisk)
    (query_embedding : List Int) (min_reward : Int) (top_k : Nat) :
    Except AgentMemError (List Episode) :=
  s.query_similar_with_options orc query_embedding (QueryOptions.new min_reward top_k)

/-- The episode collection of `checkpoint()` (disk.rs:243-250): surviving
episodes in key order `0..index.len()`, dropping unresolvable keys. -/
def AgentMemDBDisk.collectedEpisodes (s : AgentMemDBDisk) : List Episode :=
  (List.range s.index.len).filterMap
    (fun key => (hmGet s.key_to_uuid key).bind (fun id => hmGet s.episodes id))

/-- `AgentMemDBDisk::checkpoint` (disk.rs:234-280).  The non-empty line
count of the log is `s.log.length` (the code never writes blank lines).
On the write path the checkpoint file is replaced and `meta.json` is
rewritten with `checkpoint_line_count = line_count`. -/
def AgentMemDBDisk.checkpoint (s : AgentMemDBDisk) :
    Except AgentMemError Unit × AgentMemDBDisk :=
  if !s.use_checkpoint then (.ok (), s)
  else match s.index with
    | .hnsw _ => (.ok (), s)
    | .exact _ =>
      let line_count := s.log.length
      let episodes := s.collectedEpisodes
      if episodes.length ≠ line_count then (.ok (), s)
      else
        (.ok (), { s with
          checkpointFile := some episodes,
          meta := { s.meta with checkpoint_line_count := some line_count } })

/-- The rebuild loop shared by the three prune operations (disk.rs): from
cleared maps and a fresh index, re-insert each kept episode; a failed
index insert aborts the rebuild. -/
def insertAll (episodes : List (Nat × Episode)) (key_to_uuid : List (Nat × Nat))
    (index : IndexBackend) :
    List Episode → Option (List (Nat × Episode) × List (Nat × Nat) × IndexBackend)
  | [] => some (episodes, key_to_uuid, index)
  | ep :: rest =>
    match index.insert ep.state_embedding with
    | none => none
    | some r =>
      insertAll (hmInsert episodes ep.id ep) (hmInsert key_to_uuid r.1 ep.id) r.2 rest

/-- The fresh index the compaction builds (disk.rs:383-388 and
analogues): same variant as the current one, with HNSW capacity
`max(kept.len(), 20000, dim*2)`. -/
def freshIndexFor (i : IndexBackend) (keptLen dim : Nat) : IndexBackend :=
  match i with
  | .exact _ => .exact ExactIndex.new
  | .hnsw _ => .hnsw (HnswIndex.new (max (max keptLen 20000) (dim * 2)))

/-- The common compaction tail of the three prune operations
(disk.rs:368-407 / 427-465 / 491-529): clear the table, key map and
index; build a fresh index of the same variant (HNSW capacity
`max(kept.len(), 20000, dim*2)`); re-insert all kept episodes; rewrite
the log with exactly one line per kept episode; remove the checkpoint
file if present.  The fresh HNSW capacity is at least `kept.length`, so
the rebuild never hits the capacity bound (`insertAll_total` below);
the `none` arm is unreachable. -/
def AgentMemDBDisk.compactTo (s : AgentMemDBDisk) (kept : List Episode) :
    AgentMemDBDisk :=
  match insertAll [] [] (freshIndexFor s.index kept.length s.dim) kept with
  | some r =>
    { s with
      episodes := r.fst,
      key_to_uuid := r.snd.fst,
      index := r.snd.snd,
      log := kept,
      checkpointFile := none }
  | none =>
    { s with
      episodes := [],
      key_to_uuid := [],
      index := freshIndexFor s.index kept.length s.dim,
      log := kept,
      checkpointFile := none }

/-- `AgentMemDBDisk::prune_older_than` (disk.rs:352-409): keep episodes
whose timestamp is absent or ≥ cutoff; if nothing is removed return 0
without touching anything, else compact.  The Rust method returns
`Result<usize>` whose errors are all I/O; the model returns the count
with the post-state. -/
def AgentMemDBDisk.prune_older_than (s : AgentMemDBDisk)
    (timestamp_cutoff_ms : Int) : Nat × AgentMemDBDisk :=
  let kept := (s.episodes.map Prod.snd).filter
    (fun ep => (ep.timestamp.map (fun t => decide (timestamp_cutoff_ms ≤ t))).getD true)
  let removed := s.episodes.length - kept.length
  if removed = 0 then (0, s) else (removed, s.compactTo kept)

/-- The sort relation of `prune_keep_newest`: timestamp descending,
absent timestamps (as `i64::MIN`) last. -/
def tsDescLe (a b : Episode) : Prop := icmp (tsKey b) (tsKey a) ≠ Ordering.gt

instance : DecidableRel tsDescLe :=
  fun a b => inferInstanceAs (Decidable (icmp (tsKey b) (tsKey a) ≠ Ordering.gt))

/-- `AgentMemDBDisk::prune_keep_newest` (disk.rs:413-467).  The source
drains the `HashMap` in unspecified order before the stable sort; the
model drains in association-list order (the properties proved below do
not depend on the drain order). -/
def AgentMemDBDisk.prune_keep_newest (s : AgentMemDBDisk) (n : Nat) :
    Nat × AgentMemDBDisk :=
  if s.episodes.length ≤ n then (0, s)
  else
    let kept := (((s.episodes.map Prod.snd).insertionSort tsDescLe).take n)
    let removed := s.episodes.length - kept.length
    (removed, s.compactTo kept)

/-- The comparator of `prune_keep_highest_reward`: reward descending
(NaN-tolerant), ties by timestamp descending. -/
def cmpReward (a b : Episode) : Ordering :=
  match pcmp b.reward a.reward with
  | .eq => icmp (tsKey b) (tsKey a)
  | o => o

/-- The sort relation of `prune_keep_highest_reward`. -/
def rewardDescLe (a b : Episode) : Prop := cmpReward a b ≠ Ordering.gt

instance : DecidableRel rewardDescLe :=
  fun a b => inferInstanceAs (Decidable (cmpReward a b ≠ Ordering.gt))

/-- `AgentMemDBDisk::prune_keep_highest_reward` (disk.rs:470-531). -/
def AgentMemDBDisk.prune_keep_highest_reward (s : AgentMemDBDisk) (n : Nat) :
    Nat × AgentMemDBDisk :=
  if s.episodes.length ≤ n then (0, s)
  else
    let kept := (((s.episodes.map Prod.snd).insertionSort rewardDescLe).take n)
    let removed := s.episodes.length - kept.length
    (removed, s.compactTo kept)

/-- Projection of a disk store onto its in-memory part (the four fields
shared verbatim with `AgentMemDB`). -/
def AgentMemDBDisk.toMem (s : AgentMemDBDisk) : AgentMemDB :=
  { dim := s.dim, episodes := s.episodes, index := s.index,
    key_to_uuid := s.key_to_uuid }

/-- The episode table obtained by inserting the episodes of `E` in
order into an empty map. -/
def tableOf (E : List Episode) : List (Nat × Episode) :=
  E.foldl (fun m ep => hmInsert m ep.id ep) []

/-- Whether the backend is the exact variant. -/
def IndexBackend.isExactB : IndexBackend → Bool
  | .hnsw _ => false
  | .exact _ => true

/-- The backend has room for `n` more insertions: vacuous for the
unbounded exact variant, `|vectors| + n ≤ max_elements` for HNSW. -/
def IndexBackend.hasCap : IndexBackend → Nat → Prop
  | .hnsw idx, n => idx.vectors.length + n ≤ idx.max_elements
  | .exact _, _ => True

/-- The HNSW capacity of the backend (0 for the exact variant, which
has none). -/
def IndexBackend.maxElemsD : IndexBackend → Nat
  | .hnsw idx => idx.max_elements
  | .exact _ => 0

/-- Characterisation of a store built by storing the episodes of `E`,
in order, into a fresh store of dimension `d`: the index holds the
embeddings in insertion order, the key map sends key `i` to the id of
the `i`-th episode, and the episode table is the fold of inserts. -/
def Built (d : Nat) (E : List Episode) (s : AgentMemDB) : Prop :=
  s.dim = d ∧
  s.index.vecs = E.map Episode.state_embedding ∧
  s.key_to_uuid = (List.range E.length).zip (E.map Episode.id) ∧
  s.episodes = tableOf E

/-- Wellformedness of a store: every key holding a vector in the index
resolves through the key map and the episode table to an episode whose
embedding is that vector. -/
def Wf (s : AgentMemDB) : Prop :=
  ∀ k v, s.index.vecs[k]? = some v →
    ∃ uuid ep, hmGet s.key_to_uuid k = some uuid ∧
      hmGet s.episodes uuid = some ep ∧ ep.state_embedding = v

/-- Wellformedness of a disk store's episode table: keys are distinct
and each entry is keyed by its episode's id (true of every table the
code builds, since episodes are inserted under `episode.id`). -/
def TableWF (s : AgentMemDBDisk) : Prop :=
  (s.episodes.map Prod.fst).Nodup ∧ ∀ p ∈ s.episodes, p.1 = p.2.id

/-- Distance from a query to an episode's embedding (squared, see
`l2_distance_sq`). -/
def distOf (q : List Int) (ep : Episode) : Int :=
  l2_distance_sq q ep.state_embedding

/-- The result order the code actually produces: distance ascending,
ties by timestamp descending with an absent timestamp read as the
sentinel `i64::MIN`. -/
def ordSentinel (q : List Int) (a b : Episode) : Prop :=
  distOf q a < distOf q b ∨ (distOf q a = distOf q b ∧ tsKey b ≤ tsKey a)

/-- An episode's timestamp with absence read literally as −∞, as the
specification's sort description states. -/
def tsBot (ep : Episode) : WithBot Int :=
  match ep.timestamp with
  | some t => (t : WithBot Int)
  | none => ⊥

/-- The result order asserted by the specification's sort description
(distance ascending, ties by timestamp descending, absent timestamp
treated as −∞). -/
def ordSpec (q : List Int) (a b : Episode) : Prop :=
  distOf q a < distOf q b ∨ (distOf q a = distOf q b ∧ tsBot b ≤ tsBot a)

/-- `QueryOptions::matches`, explicated filter by filter: reward at
least `min_reward`; a set `tags_any` demands a non-empty intersection
with the episode's tags; a set `tags_all` demands containment; a set
`task_id_prefix` demands a matching prefix of `task_id`; a set temporal
bound demands a present timestamp inside the window; a set `source` or
`user_id` demands exact equality with a present field. -/
def MatchesSpec (o : QueryOptions) (ep : Episode) : Prop :=
  o.min_reward ≤ ep.reward ∧
  (∀ tags, o.tags_any = some tags → ∃ t ∈ tags, t ∈ ep.tags.getD []) ∧
  (∀ tags, o.tags_all = some tags → ∀ t ∈ tags, t ∈ ep.tags.getD []) ∧
  (∀ p, o.task_id_pre = some p → List.IsPrefix p ep.task_id) ∧
  (∀ t, o.time_after = some t → ∃ ts, ep.timestamp = some ts ∧ t ≤ ts) ∧
  (∀ t, o.time_before = some t → ∃ ts, ep.timestamp = some ts ∧ ts ≤ t) ∧
  (∀ src, o.source = some src → ep.source = some src) ∧
  (∀ u, o.user_id = some u → ep.user_id = some u)

/-- An oracle for the HNSW search returning no candidates (any concrete
choice function works for instantiating the theorems; exact-backend
stores ignore it). -/
def orcEmpty : SearchOracle := fun _ _ _ => []

/-- Two episodes with identical embeddings and distinct timestamps, and
the memory / disk stores (exact backend) holding exactly those two. -/
def cxA1 : Episode := { Episode.new 1 [] [0] 0 with timestamp := some 1000 }

def cxA2 : Episode := { Episode.new 2 [] [0] 0 with timestamp := some 2000 }

def mdbA : AgentMemDB := ((AgentMemDB.new_exact 1).store_episodes [cxA1, cxA2]).2

def ddbA : AgentMemDBDisk :=
  ((AgentMemDBDisk.open_fresh (DiskOptions.exact 1)).store_episodes [cxA1, cxA2]).2

/-- Two episodes with identical embeddings, one without a timestamp and
one with timestamp exactly `i64::MIN`, and the store holding them. -/
def cxB1 : Episode := Episode.new 3 [] [0] 0

def cxB2 : Episode := { Episode.new 4 [] [0] 0 with timestamp := some i64Min }

def mdbB : AgentMemDB := ((AgentMemDB.new_exact 1).store_episodes [cxB1, cxB2]).2

/-- Three episodes with identical embeddings and distinct ids, and the
store holding them. -/
def cxC1 : Episode := Episode.new 1 [] [0] 0

def cxC2 : Episode := Episode.new 2 [] [0] 0

def cxC3 : Episode := Episode.new 3 [] [0] 0

def mdbC : AgentMemDB := ((AgentMemDB.new_exact 1).store_episodes [cxC1, cxC2, cxC3]).2

/-- 20 001 one-dimensional episodes with distinct ids: one more than the
default HNSW capacity of 20 000. -/
def overE : List Episode :=
  (List.range 20001).map (fun i => Episode.new i [] [0] 0)

/-! ## Comparator lemmas -/

theorem pcmp_eq_gt_iff (a b : Int) : pcmp a b = Ordering.gt ↔ b < a := by
  unfold pcmp; split_ifs <;> simp <;> omega

theorem icmp_eq_gt_iff (a b : Int) : icmp a b = Ordering.gt ↔ b < a := by
  unfold icmp; split_ifs <;> simp <;> omega

theorem pcmp_of_lt {a b : Int} (h : a < b) : pcmp a b = .lt := by
  unfold pcmp; rw [if_pos h]

theorem pcmp_of_gt {a b : Int} (h : b < a) : pcmp a b = .gt := by
  unfold pcmp; rw [if_neg (by omega), if_pos h]

theorem pcmp_of_eq {a b : Int} (h : a = b) : pcmp a b = .eq := by
  unfold pcmp; rw [if_neg (by omega), if_neg (by omega)]

theorem distLe_iff (a b : Nat × Int) : distLe a b ↔ a.2 ≤ b.2 := by
  unfold distLe; rw [Ne, pcmp_eq_gt_iff]; omega

theorem candLe_iff (a b : Int × Episode) :
    candLe a b ↔ a.1 < b.1 ∨ (a.1 = b.1 ∧ tsKey b.2 ≤ tsKey a.2) := by
  unfold candLe cmpCand
  rcases lt_trichotomy a.1 b.1 with h | h | h
  · rw [pcmp_of_lt h]; simp [h]
  · rw [pcmp_of_eq h]; simp [h, Ne, icmp_eq_gt_iff, not_lt]
  · rw [pcmp_of_gt h]; simp; omega

instance : IsTotal (Nat × Int) distLe :=
  ⟨fun a b => by rw [distLe_iff, distLe_iff]; omega⟩

instance : IsTrans (Nat × Int) distLe :=
  ⟨fun a b c => by rw [distLe_iff, distLe_iff, distLe_iff]; omega⟩

instance : IsTotal (Int × Episode) candLe :=
  ⟨fun a b => by rw [candLe_iff, candLe_iff]; omega⟩

instance : IsTrans (Int × Episode) candLe :=
  ⟨fun a b c => by rw [candLe_iff, candLe_iff, candLe_iff]; omega⟩

/-! ## Association-list map lemmas -/

theorem hmGet_of_notMem {β : Type} (m : List (Nat × β)) (k : Nat)
    (h : k ∉ m.map Prod.fst) : hmGet m k = none := by
  induction m with
  | nil => rfl
  | cons p rest ih =>
    obtain ⟨k', v⟩ := p
    simp only [List.map_cons, List.mem_cons] at h
    push_neg at h
    rw [hmGet, if_neg (Ne.symm h.1), ih h.2]

theorem hmInsert_of_notMem {β : Type} (m : List (Nat × β)) (k : Nat) (v : β)
    (h : k ∉ m.map Prod.fst) : hmInsert m k v = m ++ [(k, v)] := by
  induction m with
  | nil => rfl
  | cons p rest ih =>
    obtain ⟨k', v'⟩ := p
    simp only [List.map_cons, List.mem_cons] at h
    push_neg at h
    rw [hmInsert, if_neg (Ne.symm h.1), ih h.2, List.cons_append]

theorem hmGet_zip_range' (ids : List Nat) : ∀ s k : Nat,
    hmGet ((List.range' s ids.length).zip ids) k =
      if s ≤ k then ids[k - s]? else none := by
  induction ids with
  | nil =>
    intro s k
    simp only [List.length_nil, List.range'_zero, List.zip_nil_left]
    split <;> rfl
  | cons a ids ih =>
    intro s k
    rw [List.length_cons, List.range'_succ, List.zip_cons_cons]
    by_cases hsk : s = k
    · subst hsk
      rw [hmGet, if_pos rfl, if_pos (Nat.le_refl s), Nat.sub_self,
        List.getElem?_cons_zero]
    · rw [hmGet, if_neg hsk, ih (s + 1) k]
      by_cases h2 : s + 1 ≤ k
      · rw [if_pos h2, if_pos (by omega)]
        have hks : k - s = (k - (s + 1)) + 1 := by omega
        rw [hks, List.getElem?_cons_succ]
      · rw [if_neg h2, if_neg (by omega)]

theorem hmGet_zip_range (ids : List Nat) (k : Nat) :
    hmGet ((List.range ids.length).zip ids) k = ids[k]? := by
  rw [List.range_eq_range', hmGet_zip_range' ids 0 k, if_pos (Nat.zero_le k),
    Nat.sub_zero]

theorem hmGet_map_pair (E : List Episode) (hn : (E.map Episode.id).Nodup)
    (ep : Episode) (h : ep ∈ E) :
    hmGet (E.map (fun e => (e.id, e))) ep.id = some ep := by
  induction E with
  | nil => cases h
  | cons e E ih =>
    simp only [List.map_cons, List.nodup_cons] at hn
    rw [List.map_cons, hmGet]
    rcases List.mem_cons.1 h with rfl | hmem
    · rw [if_pos rfl]
    · rw [if_neg ?_, ih hn.2 hmem]
      intro hid
      exact hn.1 (hid ▸ List.mem_map_of_mem Episode.id hmem)

theorem tableOf_append_singleton (E : List Episode) (ep : Episode) :
    tableOf (E ++ [ep]) = hmInsert (tableOf E) ep.id ep := by
  unfold tableOf
  rw [List.foldl_append]
  rfl

theorem tableOf_eq_map (E : List Episode) (hn : (E.map Episode.id).Nodup) :
    tableOf E = E.map (fun e => (e.id, e)) := by
  induction E using List.reverseRecOn with
  | nil => rfl
  | append_singleton E ep ih =>
    rw [List.map_append] at hn
    have hd := List.disjoint_of_nodup_append hn
    have hn' := (List.nodup_append.1 hn).1
    have hnotmem : ep.id ∉ (E.map (fun e => (e.id, e))).map Prod.fst := by
      simp only [List.map_map]
      intro hmem
      exact hd (by simpa [Function.comp] using hmem) (List.mem_singleton_self ep.id)
    rw [tableOf_append_singleton, ih hn', hmInsert_of_notMem _ _ _ hnotmem,
      List.map_append, List.map_cons, List.map_nil]

/-! ## The filter bundle, explicated -/

theorem rstrStartsWith_iff (s p : RStr) :
    rstrStartsWith s p = true ↔ List.IsPrefix p s := by
  induction s generalizing p with
  | nil =>
    cases p with
    | nil => simp [show rstrStartsWith [] [] = true from rfl, List.nil_prefix]
    | cons d p => simp [show rstrStartsWith [] (d :: p) = false from rfl]
  | cons c s ih =>
    cases p with
    | nil => simp [show rstrStartsWith (c :: s) [] = true from rfl, List.nil_prefix]
    | cons d p =>
      rw [show rstrStartsWith (c :: s) (d :: p) =
        (decide (c = d) && rstrStartsWith s p) from rfl]
      simp only [Bool.and_eq_true, decide_eq_true_eq, ih, List.cons_prefix_cons]
      exact and_congr eq_comm Iff.rfl

theorem matches_iff_spec (o : QueryOptions) (ep : Episode) :
    o.matches ep = true ↔ MatchesSpec o ep := by
  unfold QueryOptions.matches MatchesSpec
  simp only [Bool.and_eq_true, and_assoc]
  refine and_congr (by simp [not_lt]) (and_congr ?_ (and_congr ?_ (and_congr ?_
    (and_congr ?_ (and_congr ?_ (and_congr ?_ ?_))))))
  · cases h : o.tags_any with
    | none => simp
    | some tags => simp [List.any_eq_true, List.contains, List.elem_iff]
  · cases h : o.tags_all with
    | none => simp
    | some tags => simp [List.all_eq_true, List.contains, List.elem_iff]
  · cases h : o.task_id_pre with
    | none => simp
    | some p => simp [rstrStartsWith_iff]
  · cases h : o.time_after with
    | none => simp
    | some t =>
      cases ht : ep.timestamp with
      | none => simp
      | some ep_ts => simp [not_lt]
  · cases h : o.time_before with
    | none => simp
    | some t =>
      cases ht : ep.timestamp with
      | none => simp
      | some ep_ts => simp [not_lt]
  · cases h : o.source with
    | none => simp
    | some src => simp
  · cases h : o.user_id with
    | none => simp
    | some u => simp

/-! ## C6: dimension mismatch leaves the state untouched -/

/-- C6: storing an episode whose embedding length differs from the
store's `dim` returns `DimensionMismatch{expected = dim, got = len}` and
leaves the entire store state — episode table, key map, index, and for
the disk store also the log, checkpoint file and metadata — unchanged,
on both `AgentMemDB` and `AgentMemDBDisk`. -/
theorem C6_dimension_mismatch_no_state_change (s : AgentMemDB)
    (sd : AgentMemDBDisk) (ep epd : Episode)
    (h : ep.state_embedding.length ≠ s.dim)
    (hd : epd.state_embedding.length ≠ sd.dim) :
    s.store_episode ep =
      (.error (.dimensionMismatch s.dim ep.state_embedding.length), s) ∧
    sd.store_episode epd =
      (.error (.dimensionMismatch sd.dim epd.state_embedding.length), sd) := by
  constructor
  · unfold AgentMemDB.store_episode
    rw [if_pos h]
  · unfold AgentMemDBDisk.store_episode
    rw [if_pos hd]

theorem C6_dimension_mismatch_no_state_change_witness :
    (cxB1.state_embedding.length ≠ (AgentMemDB.new_exact 2).dim ∧
     cxB1.state_embedding.length ≠
       (AgentMemDBDisk.open_fresh (DiskOptions.exact 2)).dim) ∧
    ((AgentMemDB.new_exact 2).store_episode cxB1 =
      (.error (.dimensionMismatch (AgentMemDB.new_exact 2).dim
        cxB1.state_embedding.length), AgentMemDB.new_exact 2) ∧
     (AgentMemDBDisk.open_fresh (DiskOptions.exact 2)).store_episode cxB1 =
      (.error (.dimensionMismatch
        (AgentMemDBDisk.open_fresh (DiskOptions.exact 2)).dim
        cxB1.state_embedding.length),
        AgentMemDBDisk.open_fresh (DiskOptions.exact 2))) :=
  ⟨⟨by decide, by decide⟩,
    C6_dimension_mismatch_no_state_change (AgentMemDB.new_exact 2)
      (AgentMemDBDisk.open_fresh (DiskOptions.exact 2)) cxB1 cxB1
      (by decide) (by decide)⟩

/-! ## C8: checkpoint guards -/

/-- C8: `checkpoint()` returns success with nothing written unless the
backend is exact and `use_checkpoint` is set; and even then, when the
number of episodes collected in key order differs from the count of
non-empty log lines, it returns success without writing the checkpoint
file or updating `meta.json` (the state is returned unchanged). -/
theorem C8_checkpoint_silent_guards (s : AgentMemDBDisk) :
    (s.use_checkpoint = false → s.checkpoint = (.ok (), s)) ∧
    (∀ idx, s.index = .hnsw idx → s.checkpoint = (.ok (), s)) ∧
    (s.collectedEpisodes.length ≠ s.log.length → s.checkpoint = (.ok (), s)) := by
  refine ⟨?_, ?_, ?_⟩
  · intro h
    unfold AgentMemDBDisk.checkpoint
    rw [h]
    rfl
  · intro idx h
    unfold AgentMemDBDisk.checkpoint
    rw [h]
    cases s.use_checkpoint <;> rfl
  · intro h
    unfold AgentMemDBDisk.checkpoint
    cases hu : s.use_checkpoint with
    | false => rfl
    | true =>
      cases hi : s.index with
      | hnsw idx => rfl
      | exact idx =>
        simp only [Bool.not_true, Bool.false_eq_true, if_false]
        rw [if_pos h]

theorem C8_checkpoint_silent_guards_witness :
    ddbA.use_checkpoint = false ∧ ddbA.checkpoint = (.ok (), ddbA) :=
  ⟨by decide, (C8_checkpoint_silent_guards ddbA).1 (by decide)⟩

/-! ## C10: empty tag lists -/

/-- C10: `tags_any = Some([])` rejects every episode — the query
returns no results — whereas `tags_all = Some([])` is vacuously true:
the filter behaves exactly as if `tags_all` were absent. -/
theorem C10_empty_tag_lists (orc : SearchOracle) (s : AgentMemDB)
    (q : List Int) (opts : QueryOptions) (ep : Episode)
    (hq : q.length = s.dim) :
    s.query_similar_with_options orc q { opts with tags_any := some [] } =
      .ok [] ∧
    QueryOptions.matches { opts with tags_any := some [] } ep = false ∧
    QueryOptions.matches { opts with tags_all := some [] } ep =
      QueryOptions.matches { opts with tags_all := none } ep := by
  have hm : ∀ e : Episode,
      QueryOptions.matches { opts with tags_any := some [] } e = false := by
    intro e
    simp [QueryOptions.matches]
  refine ⟨?_, hm ep, ?_⟩
  · unfold AgentMemDB.query_similar_with_options
    rw [if_neg (by simp [hq])]
    unfold memPost
    have hcand : ∀ (results : List (Nat × Int)),
        results.filterMap (fun r =>
          (resolveKey s.key_to_uuid s.episodes r.1).bind (fun e =>
            if QueryOptions.matches { opts with tags_any := some [] } e then
              some (r.2, e) else none)) = [] := by
      intro results
      rw [List.filterMap_eq_nil_iff]
      intro r _
      cases hres : resolveKey s.key_to_uuid s.episodes r.1 with
      | none => rfl
      | some e => simp [hm e]
    rw [hcand]
    simp
  · simp [QueryOptions.matches]

theorem C10_empty_tag_lists_witness :
    ([(0 : Int)].length = mdbA.dim) ∧
    (mdbA.query_similar_with_options orcEmpty [0]
      { QueryOptions.new 0 2 with tags_any := some [] } = .ok [] ∧
     QueryOptions.matches { QueryOptions.new 0 2 with tags_any := some [] } cxA1 =
       false ∧
     QueryOptions.matches { QueryOptions.new 0 2 with tags_all := some [] } cxA1 =
       QueryOptions.matches { QueryOptions.new 0 2 with tags_all := none } cxA1) :=
  ⟨by decide, C10_empty_tag_lists orcEmpty mdbA [0] (QueryOptions.new 0 2) cxA1
    (by decide)⟩

/-! ## C5: the oversampling multiplier -/

theorem candidateMult_eq (opts : QueryOptions) :
    candidateMult opts =
      if opts.tags_any ≠ none ∨ opts.tags_all ≠ none ∨ opts.task_id_pre ≠ none ∨
         opts.time_after ≠ none ∨ opts.time_before ≠ none ∨ opts.source ≠ none ∨
         opts.user_id ≠ none then 4 else 2 := by
  unfold candidateMult
  simp only [Bool.or_eq_true, Option.isSome_iff_ne_none, or_assoc]

theorem candidateMultDisk_eq (opts : QueryOptions) :
    candidateMultDisk opts =
      if opts.tags_any ≠ none ∨ opts.time_after ≠ none ∨ opts.time_before ≠ none
      then 4 else 2 := by
  unfold candidateMultDisk
  simp only [Bool.or_eq_true, Option.isSome_iff_ne_none, or_assoc]

/-- C5: for a query of matching dimension, the memory store issues
`index.search` with `k = top_k * 4` exactly when one of the seven
filters (tags_any, tags_all, task_id_prefix, time_after, time_before,
source, user_id) is set and `k = top_k * 2` otherwise, while the disk
store computes the multiplier by the same rule gated only on tags_any,
time_after and time_before. -/
theorem C5_oversampling_multiplier (orc : SearchOracle) (s : AgentMemDB)
    (sd : AgentMemDBDisk) (q qd : List Int) (opts : QueryOptions)
    (h : q.length = s.dim) (hd : qd.length = sd.dim) :
    s.query_similar_with_options orc q opts =
      .ok (memPost s opts (s.index.search orc q (opts.top_k *
        (if opts.tags_any ≠ none ∨ opts.tags_all ≠ none ∨
            opts.task_id_pre ≠ none ∨ opts.time_after ≠ none ∨
            opts.time_before ≠ none ∨ opts.source ≠ none ∨
            opts.user_id ≠ none then 4 else 2)))) ∧
    sd.query_similar_with_options orc qd opts =
      .ok (diskPost sd opts (sd.index.search orc qd (opts.top_k *
        (if opts.tags_any ≠ none ∨ opts.time_after ≠ none ∨
            opts.time_before ≠ none then 4 else 2)))) := by
  constructor
  · unfold AgentMemDB.query_similar_with_options
    rw [if_neg (by simp [h]), ← candidateMult_eq]
  · unfold AgentMemDBDisk.query_similar_with_options
    rw [if_neg (by simp [hd]), ← candidateMultDisk_eq]

theorem C5_oversampling_multiplier_witness :
    (([(0 : Int)].length = mdbA.dim ∧ [(0 : Int)].length = ddbA.dim)) ∧
    (mdbA.query_similar_with_options orcEmpty [0] (QueryOptions.new 0 2) =
      .ok (memPost mdbA (QueryOptions.new 0 2) (mdbA.index.search orcEmpty [0]
        ((QueryOptions.new 0 2).top_k *
          (if (QueryOptions.new 0 2).tags_any ≠ none ∨
              (QueryOptions.new 0 2).tags_all ≠ none ∨
              (QueryOptions.new 0 2).task_id_pre ≠ none ∨
              (QueryOptions.new 0 2).time_after ≠ none ∨
              (QueryOptions.new 0 2).time_before ≠ none ∨
              (QueryOptions.new 0 2).source ≠ none ∨
              (QueryOptions.new 0 2).user_id ≠ none then 4 else 2)))) ∧
     ddbA.query_similar_with_options orcEmpty [0] (QueryOptions.new 0 2) =
      .ok (diskPost ddbA (QueryOptions.new 0 2) (ddbA.index.search orcEmpty [0]
        ((QueryOptions.new 0 2).top_k *
          (if (QueryOptions.new 0 2).tags_any ≠ none ∨
              (QueryOptions.new 0 2).time_after ≠ none ∨
              (QueryOptions.new 0 2).time_before ≠ none then 4 else 2))))) :=
  ⟨⟨by decide, by decide⟩,
    C5_oversampling_multiplier orcEmpty mdbA ddbA [0] [0] (QueryOptions.new 0 2)
      (by decide) (by decide)⟩

/-! ## C3: every returned episode satisfies the filter bundle -/

/-- C3: for every store state, oracle, query and options, every episode
in a successful result of the memory store's query satisfies
`opts.matches`, explicated as: reward ≥ min_reward; a set temporal bound
demands a present timestamp inside the window (an episode without a
timestamp fails either temporal filter); a set source or user_id demands
exact equality of the present field; tags_any demands a non-empty
intersection, tags_all containment, task_id_prefix a matching prefix. -/
theorem C3_results_satisfy_filters (orc : SearchOracle) (s : AgentMemDB)
    (q : List Int) (opts : QueryOptions) (res : List Episode)
    (h : s.query_similar_with_options orc q opts = .ok res) :
    ∀ ep ∈ res, opts.matches ep = true ∧ MatchesSpec opts ep := by
  intro ep hep
  unfold AgentMemDB.query_similar_with_options at h
  split at h
  · simp at h
  · rw [Except.ok.injEq] at h
    subst h
    unfold memPost at hep
    simp only [List.mem_map] at hep
    obtain ⟨c, hc, rfl⟩ := hep
    have hc2 := List.mem_of_mem_take hc
    rw [List.mem_insertionSort] at hc2
    simp only [List.mem_filterMap] at hc2
    obtain ⟨r, _, hr⟩ := hc2
    rw [Option.bind_eq_some] at hr
    obtain ⟨ep', _, hif⟩ := hr
    by_cases hm : opts.matches ep' = true
    · rw [if_pos hm, Option.some.injEq] at hif
      subst hif
      exact ⟨hm, (matches_iff_spec opts ep').1 hm⟩
    · rw [if_neg hm] at hif
      cases hif

theorem C3_results_satisfy_filters_witness :
    (mdbA.query_similar_with_options orcEmpty [0] (QueryOptions.new 0 2) =
      .ok [cxA2, cxA1]) ∧
    (∀ ep ∈ [cxA2, cxA1],
      (QueryOptions.new 0 2).matches ep = true ∧
        MatchesSpec (QueryOptions.new 0 2) ep) :=
  ⟨by decide,
    C3_results_satisfy_filters orcEmpty mdbA [0] (QueryOptions.new 0 2)
      [cxA2, cxA1] (by decide)⟩

/-! ## Characterisation of stores built by successive inserts -/

/-- A successful insert under available capacity: the key is the vector
count, the new backend appends the vector, keeps the variant and the
capacity, and has room for one fewer further insertion. -/
theorem index_insert_succ (i : IndexBackend) (v : List Int) (n : Nat)
    (h : i.hasCap (n + 1)) :
    ∃ i', i.insert v = some (i.vecs.length, i') ∧ i'.vecs = i.vecs ++ [v] ∧
      i'.isExactB = i.isExactB ∧ i'.maxElemsD = i.maxElemsD ∧ i'.hasCap n := by
  cases i with
  | hnsw idx =>
    have h' : idx.vectors.length + (n + 1) ≤ idx.max_elements := h
    refine ⟨.hnsw ⟨idx.max_elements, idx.vectors ++ [v]⟩, ?_, rfl, rfl, rfl, ?_⟩
    · show (idx.insert v).map (fun r => (r.1, IndexBackend.hnsw r.2)) =
        some (idx.vectors.length, .hnsw ⟨idx.max_elements, idx.vectors ++ [v]⟩)
      unfold HnswIndex.insert
      rw [if_pos (by omega)]
      rfl
    · show (idx.vectors ++ [v]).length + n ≤ idx.max_elements
      rw [List.length_append, List.length_singleton]
      omega
  | exact idx =>
    exact ⟨.exact ⟨idx.vectors ++ [v]⟩, rfl, rfl, rfl, rfl, trivial⟩

/-- An insert into a full HNSW backend fails (spec §4.3/§9). -/
theorem index_insert_at_capacity (idx : HnswIndex) (v : List Int)
    (h : idx.max_elements ≤ idx.vectors.length) :
    (IndexBackend.hnsw idx).insert v = none := by
  show (idx.insert v).map (fun r => (r.1, IndexBackend.hnsw r.2)) = none
  unfold HnswIndex.insert
  rw [if_neg (by omega)]
  rfl

theorem index_len_eq_vecs_length (i : IndexBackend) : i.len = i.vecs.length := by
  cases i <;> rfl

theorem index_eq_exact_of_isExactB (i : IndexBackend) (h : i.isExactB = true) :
    i = .exact ⟨i.vecs⟩ := by
  cases i with
  | hnsw idx => cases h
  | exact idx => rfl

theorem index_eq_hnsw_of_isExactB_false (i : IndexBackend)
    (h : i.isExactB = false) : i = .hnsw ⟨i.maxElemsD, i.vecs⟩ := by
  cases i with
  | hnsw idx => rfl
  | exact idx => cases h

theorem store_episode_built (d : Nat) (E : List Episode) (s : AgentMemDB)
    (ep : Episode) (n : Nat) (hb : Built d E s)
    (h : ep.state_embedding.length = d) (hcap : s.index.hasCap (n + 1)) :
    ∃ s', s.store_episode ep = (.ok (), s') ∧ Built d (E ++ [ep]) s' ∧
      s'.index.isExactB = s.index.isExactB ∧
      s'.index.maxElemsD = s.index.maxElemsD ∧ s'.index.hasCap n := by
  obtain ⟨hd, hv, hk, he⟩ := hb
  obtain ⟨i', hins, hv', hex', hmax', hcap'⟩ :=
    index_insert_succ s.index ep.state_embedding n hcap
  refine ⟨{ s with
      index := i',
      key_to_uuid := hmInsert s.key_to_uuid s.index.vecs.length ep.id,
      episodes := hmInsert s.episodes ep.id ep }, ?_, ⟨?_, ?_, ?_, ?_⟩, ?_, ?_, ?_⟩
  · unfold AgentMemDB.store_episode
    rw [if_neg (by rw [h, hd]; exact fun hh => hh rfl), hins]
  · exact hd
  · rw [hv', hv]
    simp
  · rw [hv, List.length_map, hk]
    have hnot : E.length ∉ ((List.range E.length).zip (E.map Episode.id)).map
        Prod.fst := by
      rw [List.map_fst_zip _ _ (by simp)]
      exact fun hh => absurd (List.mem_range.1 hh) (lt_irrefl E.length)
    rw [hmInsert_of_notMem _ _ _ hnot]
    rw [List.length_append, List.length_singleton, List.range_succ, List.map_append,
      List.zip_append (by simp)]
    rfl
  · rw [he, ← tableOf_append_singleton]
  · exact hex'
  · exact hmax'
  · exact hcap'

theorem store_episodes_built (E₂ : List Episode) : ∀ (E₁ : List Episode)
    (s : AgentMemDB) (d : Nat), Built d E₁ s →
    (∀ ep ∈ E₂, ep.state_embedding.length = d) →
    s.index.hasCap E₂.length →
    ∃ s', s.store_episodes E₂ = (.ok (), s') ∧ Built d (E₁ ++ E₂) s' ∧
      s'.index.isExactB = s.index.isExactB ∧
      s'.index.maxElemsD = s.index.maxElemsD := by
  induction E₂ with
  | nil =>
    intro E₁ s d hb _ _
    exact ⟨s, rfl, by simpa using hb, rfl, rfl⟩
  | cons ep rest ih =>
    intro E₁ s d hb hl hcap
    obtain ⟨s', hst, hb', hex, hmax, hcap'⟩ :=
      store_episode_built d E₁ s ep rest.length hb
        (hl ep (List.mem_cons_self ep rest)) hcap
    obtain ⟨s'', hst2, hb'', hex2, hmax2⟩ :=
      ih (E₁ ++ [ep]) s' d hb' (fun e he => hl e (List.mem_cons_of_mem ep he)) hcap'
    refine ⟨s'', ?_, by simpa [List.append_assoc] using hb'', hex2.trans hex,
      hmax2.trans hmax⟩
    unfold AgentMemDB.store_episodes
    rw [hst]
    exact hst2

theorem store_episodes_cons (s : AgentMemDB) (ep : Episode)
    (rest : List Episode) :
    s.store_episodes (ep :: rest) =
      match s.store_episode ep with
      | (.ok _, s') => s'.store_episodes rest
      | (.error e, s') => (.error e, s') := rfl

/-- Splitting a sequential build at an intermediate success. -/
theorem store_episodes_append (L₁ L₂ : List Episode) : ∀ (s s₁ : AgentMemDB),
    s.store_episodes L₁ = (.ok (), s₁) →
    s.store_episodes (L₁ ++ L₂) = s₁.store_episodes L₂ := by
  induction L₁ with
  | nil =>
    intro s s₁ h
    have hse : s = s₁ := congrArg Prod.snd h
    rw [← hse]
    rfl
  | cons ep rest ih =>
    intro s s₁ h
    rw [List.cons_append, store_episodes_cons]
    rw [store_episodes_cons] at h
    cases hst : s.store_episode ep with
    | mk st s' =>
      rw [hst] at h
      cases st with
      | ok u => exact ih s' s₁ h
      | error e =>
        exact Except.noConfusion
          (congrArg Prod.fst h : (Except.error e : Except AgentMemError Unit) = .ok ())

theorem built_nil_new_exact (d : Nat) : Built d [] (AgentMemDB.new_exact d) :=
  ⟨rfl, rfl, rfl, rfl⟩

theorem built_nil_new (d : Nat) : Built d [] (AgentMemDB.new d) :=
  ⟨rfl, rfl, rfl, rfl⟩

theorem built_nil_new_with_max (d m : Nat) :
    Built d [] (AgentMemDB.new_with_max_elements d m) :=
  ⟨rfl, rfl, rfl, rfl⟩

/-- The invariant contents of C2, derived from the characterisation. -/
theorem built_invariants (d : Nat) (E : List Episode) (s : AgentMemDB)
    (hb : Built d E s) (hn : (E.map Episode.id).Nodup) :
    s.episodes.length = E.length ∧ s.key_to_uuid.length = E.length ∧
    s.index.len = E.length ∧
    (∀ i, i ∈ s.episodes.map Prod.fst ↔ i ∈ s.key_to_uuid.map Prod.snd) := by
  obtain ⟨_, hv, hk, he⟩ := hb
  have hkeys : s.episodes.map Prod.fst = E.map Episode.id := by
    rw [he, tableOf_eq_map E hn, List.map_map]
    rfl
  have hvals : s.key_to_uuid.map Prod.snd = E.map Episode.id := by
    rw [hk]
    exact List.map_snd_zip _ _ (by simp)
  refine ⟨?_, ?_, ?_, ?_⟩
  · rw [he, tableOf_eq_map E hn, List.length_map]
  · rw [hk, List.length_zip, List.length_range, List.length_map, Nat.min_self]
  · rw [index_len_eq_vecs_length, hv, List.length_map]
  · intro i
    rw [hkeys, hvals]

/-! ## C2: the size and correspondence invariants after a build -/

/-- C2 (amended): storing a sequence of episodes with distinct ids and
embeddings of the store's dimension into a fresh store succeeds, and
afterwards the episode table, the key map and the index all have
exactly `|E|` entries, with an id in the episode table iff it is a
value of the key map — on the default HNSW store provided `|E|` does
not exceed the capacity 20 000 (beyond it the index insert fails, spec
§4.3/§9), and on the exact store unconditionally. -/
theorem C2_build_invariants (d : Nat) (E : List Episode)
    (hn : (E.map Episode.id).Nodup)
    (hl : ∀ ep ∈ E, ep.state_embedding.length = d) :
    (E.length ≤ 20000 →
      ∃ s, (AgentMemDB.new d).store_episodes E = (.ok (), s) ∧
      s.episodes.length = E.length ∧ s.key_to_uuid.length = E.length ∧
      s.index.len = E.length ∧
      (∀ i, i ∈ s.episodes.map Prod.fst ↔ i ∈ s.key_to_uuid.map Prod.snd)) ∧
    (∃ s, (AgentMemDB.new_exact d).store_episodes E = (.ok (), s) ∧
      s.episodes.length = E.length ∧ s.key_to_uuid.length = E.length ∧
      s.index.len = E.length ∧
      (∀ i, i ∈ s.episodes.map Prod.fst ↔ i ∈ s.key_to_uuid.map Prod.snd)) := by
  constructor
  · intro hcap
    obtain ⟨s, hst, hb, _, _⟩ :=
      store_episodes_built E [] (AgentMemDB.new d) d (built_nil_new d) hl
        (by show ([] : List (List Int)).length + E.length ≤ 20000
            rw [List.length_nil, Nat.zero_add]
            exact hcap)
    exact ⟨s, hst, built_invariants d E s (by simpa using hb) hn⟩
  · obtain ⟨s, hst, hb, _, _⟩ :=
      store_episodes_built E [] (AgentMemDB.new_exact d) d
        (built_nil_new_exact d) hl trivial
    exact ⟨s, hst, built_invariants d E s (by simpa using hb) hn⟩

theorem C2_build_invariants_witness :
    (([cxA1, cxA2].map Episode.id).Nodup ∧
      ∀ ep ∈ [cxA1, cxA2], ep.state_embedding.length = 1) ∧
    (([cxA1, cxA2].length ≤ 20000 →
      ∃ s, (AgentMemDB.new 1).store_episodes [cxA1, cxA2] = (.ok (), s) ∧
      s.episodes.length = [cxA1, cxA2].length ∧
      s.key_to_uuid.length = [cxA1, cxA2].length ∧
      s.index.len = [cxA1, cxA2].length ∧
      (∀ i, i ∈ s.episodes.map Prod.fst ↔ i ∈ s.key_to_uuid.map Prod.snd)) ∧
    (∃ s, (AgentMemDB.new_exact 1).store_episodes [cxA1, cxA2] = (.ok (), s) ∧
      s.episodes.length = [cxA1, cxA2].length ∧
      s.key_to_uuid.length = [cxA1, cxA2].length ∧
      s.index.len = [cxA1, cxA2].length ∧
      (∀ i, i ∈ s.episodes.map Prod.fst ↔ i ∈ s.key_to_uuid.map Prod.snd))) :=
  ⟨⟨by decide, by decide⟩, C2_build_invariants 1 [cxA1, cxA2] (by decide) (by decide)⟩

/-- C2, counterexample to the claim as stated: `overE` holds 20 001
episodes with distinct ids and embeddings of the store's dimension —
within the claim's hypotheses — yet building the default store from it
does not put `|E|` entries in the tables: the 20 001st index insert
exceeds the HNSW capacity 20 000 and fails (spec §4.3/§9), so
`store_episode` propagates `HnswError` and the episode table holds
20 000 entries, not 20 001. -/
theorem C2_capacity_counterexample :
    ((overE.map Episode.id).Nodup ∧
      ∀ ep ∈ overE, ep.state_embedding.length = 1) ∧
    ((AgentMemDB.new 1).store_episodes overE).1 = .error .hnswError ∧
    ((AgentMemDB.new 1).store_episodes overE).2.episodes.length = 20000 ∧
    overE.length = 20001 := by
  have hcomp : (Episode.id ∘ fun i => Episode.new i [] [0] 0) = id :=
    funext (fun _ => rfl)
  have hids : overE.map Episode.id = List.range 20001 := by
    unfold overE
    rw [List.map_map, hcomp, List.map_id]
  have hsplit : overE = (List.range 20000).map (fun i => Episode.new i [] [0] 0)
      ++ [Episode.new 20000 [] [0] 0] := by
    unfold overE
    have h1 : (20001 : Nat) = 20000 + 1 := rfl
    rw [h1, List.range_succ, List.map_append]
    rfl
  have hlP : ∀ ep ∈ (List.range 20000).map (fun i => Episode.new i [] [0] 0),
      ep.state_embedding.length = 1 := by
    intro ep hep
    obtain ⟨i, _, rfl⟩ := List.mem_map.1 hep
    rfl
  have hnP : (((List.range 20000).map (fun i => Episode.new i [] [0] 0)).map
      Episode.id).Nodup := by
    rw [List.map_map, hcomp, List.map_id]
    exact List.nodup_range _
  have hcapP : (AgentMemDB.new 1).index.hasCap
      ((List.range 20000).map (fun i => Episode.new i [] [0] 0)).length := by
    have hlen : ((List.range 20000).map (fun i => Episode.new i [] [0] 0)).length
        = 20000 := by
      rw [List.length_map, List.length_range]
    rw [hlen]
    show ([] : List (List Int)).length + 20000 ≤ 20000
    rw [List.length_nil, Nat.zero_add]
  obtain ⟨s₁, hst₁, hb₁, hex₁, hmax₁⟩ :=
    store_episodes_built ((List.range 20000).map (fun i => Episode.new i [] [0] 0))
      [] (AgentMemDB.new 1) 1 (built_nil_new 1) hlP hcapP
  have hb₁' : Built 1 ((List.range 20000).map (fun i => Episode.new i [] [0] 0))
      s₁ := by simpa using hb₁
  have hexf : s₁.index.isExactB = false := by rw [hex₁]; rfl
  have hmaxf : s₁.index.maxElemsD = 20000 := by rw [hmax₁]; rfl
  have hhn : s₁.index = .hnsw ⟨20000, s₁.index.vecs⟩ := by
    have hh := index_eq_hnsw_of_isExactB_false s₁.index hexf
    rwa [hmaxf] at hh
  have hvlen : s₁.index.vecs.length = 20000 := by
    rw [hb₁'.2.1, List.length_map, List.length_map, List.length_range]
  have hins : s₁.index.insert (Episode.new 20000 [] [0] 0).state_embedding
      = none := by
    rw [hhn]
    exact index_insert_at_capacity _ _
      (by show (20000 : Nat) ≤ s₁.index.vecs.length; exact hvlen.ge)
  have hse : s₁.store_episode (Episode.new 20000 [] [0] 0)
      = (.error .hnswError, s₁) := by
    unfold AgentMemDB.store_episode
    rw [if_neg (fun hh => hh hb₁'.1.symm), hins]
  have hfinal : (AgentMemDB.new 1).store_episodes overE
      = (.error .hnswError, s₁) := by
    rw [hsplit, store_episodes_append _ _ _ _ hst₁]
    unfold AgentMemDB.store_episodes
    rw [hse]
  refine ⟨⟨?_, ?_⟩, ?_, ?_, ?_⟩
  · rw [hids]
    exact List.nodup_range _
  · intro ep hep
    unfold overE at hep
    obtain ⟨i, _, rfl⟩ := List.mem_map.1 hep
    rfl
  · rw [hfinal]
  · rw [hfinal]
    exact (built_invariants 1 _ s₁ hb₁' hnP).1.trans
      (by rw [List.length_map, List.length_range])
  · unfold overE
    rw [List.length_map, List.length_range]

/-! ## C7: prune compaction on the disk store -/

/-- Under sufficient capacity the rebuild loop succeeds, and the
rebuilt episode table is the insertion fold of the kept episodes. -/
theorem insertAll_total : ∀ (L : List Episode) (es : List (Nat × Episode))
    (km : List (Nat × Nat)) (i : IndexBackend), i.hasCap L.length →
    ∃ km' i', insertAll es km i L =
      some (L.foldl (fun m ep => hmInsert m ep.id ep) es, km', i') := by
  intro L
  induction L with
  | nil => intro es km i _; exact ⟨km, i, rfl⟩
  | cons ep rest ih =>
    intro es km i hcap
    obtain ⟨i', hins, _, _, _, hcap'⟩ :=
      index_insert_succ i ep.state_embedding rest.length hcap
    obtain ⟨km', i'', hrec⟩ :=
      ih (hmInsert es ep.id ep) (hmInsert km i.vecs.length ep.id) i' hcap'
    refine ⟨km', i'', ?_⟩
    unfold insertAll
    rw [hins]
    exact hrec

/-- The compaction's fresh index always has room for the kept episodes
(its HNSW capacity is at least `kept.length` by construction). -/
theorem freshIndexFor_hasCap (i : IndexBackend) (n d : Nat) :
    (freshIndexFor i n d).hasCap n := by
  cases i with
  | hnsw idx =>
    show ([] : List (List Int)).length + n ≤ max (max n 20000) (d * 2)
    rw [List.length_nil, Nat.zero_add]
    exact le_trans (le_max_left _ _) (le_max_left _ _)
  | exact idx => trivial

theorem compactTo_spec (s : AgentMemDBDisk) (kept : List Episode) :
    (s.compactTo kept).log = kept ∧ (s.compactTo kept).checkpointFile = none ∧
    (s.compactTo kept).episodes = tableOf kept := by
  obtain ⟨km', i', hins⟩ := insertAll_total kept [] []
    (freshIndexFor s.index kept.length s.dim)
    (freshIndexFor_hasCap s.index kept.length s.dim)
  unfold AgentMemDBDisk.compactTo
  rw [hins]
  exact ⟨rfl, rfl, rfl⟩

theorem tableWF_values_nodup (s : AgentMemDBDisk) (hwf : TableWF s) :
    ((s.episodes.map Prod.snd).map Episode.id).Nodup := by
  have : (s.episodes.map Prod.snd).map Episode.id = s.episodes.map Prod.fst := by
    rw [List.map_map]
    exact List.map_congr_left (fun p hp => (hwf.2 p hp).symm)
  rw [this]
  exact hwf.1

theorem tableOf_values (L : List Episode) (hn : (L.map Episode.id).Nodup) :
    (tableOf L).map Prod.snd = L := by
  rw [tableOf_eq_map L hn, List.map_map]
  exact List.map_id'' (fun _ => rfl) L

/-- C7: each of the three disk prune operations returns 0 with the
state (log included) untouched when nothing is removed; otherwise the
rewritten log holds exactly one line per surviving episode (the new
table's values, in order), the checkpoint file no longer exists, and
the returned count equals the number of episodes removed. -/
theorem C7_prune_compaction (s : AgentMemDBDisk) (cutoff : Int) (n : Nat)
    (hwf : TableWF s) :
    (((s.prune_older_than cutoff).1 = 0 → (s.prune_older_than cutoff).2 = s) ∧
     ((s.prune_older_than cutoff).1 ≠ 0 →
       (s.prune_older_than cutoff).2.checkpointFile = none ∧
       (s.prune_older_than cutoff).2.episodes.map Prod.snd =
         (s.prune_older_than cutoff).2.log ∧
       (s.prune_older_than cutoff).1 =
         s.episodes.length - (s.prune_older_than cutoff).2.log.length)) ∧
    (((s.prune_keep_newest n).1 = 0 → (s.prune_keep_newest n).2 = s) ∧
     ((s.prune_keep_newest n).1 ≠ 0 →
       (s.prune_keep_newest n).2.checkpointFile = none ∧
       (s.prune_keep_newest n).2.episodes.map Prod.snd =
         (s.prune_keep_newest n).2.log ∧
       (s.prune_keep_newest n).1 =
         s.episodes.length - (s.prune_keep_newest n).2.log.length)) ∧
    (((s.prune_keep_highest_reward n).1 = 0 →
       (s.prune_keep_highest_reward n).2 = s) ∧
     ((s.prune_keep_highest_reward n).1 ≠ 0 →
       (s.prune_keep_highest_reward n).2.checkpointFile = none ∧
       (s.prune_keep_highest_reward n).2.episodes.map Prod.snd =
         (s.prune_keep_highest_reward n).2.log ∧
       (s.prune_keep_highest_reward n).1 =
         s.episodes.length - (s.prune_keep_highest_reward n).2.log.length)) := by
  have hvn := tableWF_values_nodup s hwf
  refine ⟨?_, ?_, ?_⟩
  · unfold AgentMemDBDisk.prune_older_than
    set kept := (s.episodes.map Prod.snd).filter
      (fun ep => (ep.timestamp.map
        (fun t => decide (cutoff ≤ t))).getD true) with hkept
    by_cases h0 : s.episodes.length - kept.length = 0
    · rw [if_pos h0]
      exact ⟨fun _ => rfl, fun hne => absurd rfl hne⟩
    · rw [if_neg h0]
      obtain ⟨hlog, hcp, hep⟩ := compactTo_spec s kept
      have hkn : (kept.map Episode.id).Nodup :=
        (List.Sublist.map Episode.id (List.filter_sublist _)).nodup hvn
      refine ⟨fun h => absurd h h0, fun _ => ⟨hcp, ?_, ?_⟩⟩
      · rw [hep, hlog, tableOf_values kept hkn]
      · rw [hlog]
  · unfold AgentMemDBDisk.prune_keep_newest
    by_cases hle : s.episodes.length ≤ n
    · rw [if_pos hle]
      exact ⟨fun _ => rfl, fun hne => absurd rfl hne⟩
    · rw [if_neg hle]
      set kept := (((s.episodes.map Prod.snd).insertionSort tsDescLe).take n)
        with hkept
      obtain ⟨hlog, hcp, hep⟩ := compactTo_spec s kept
      have hkn : (kept.map Episode.id).Nodup := by
        refine (List.Sublist.map Episode.id (List.take_sublist _ _)).nodup ?_
        exact ((List.perm_insertionSort tsDescLe _).map Episode.id).nodup_iff.2 hvn
      have hlen : kept.length = n := by
        rw [hkept, List.length_take, List.length_insertionSort, List.length_map]
        omega
      refine ⟨?_, fun _ => ⟨hcp, ?_, ?_⟩⟩
      · intro h
        exact absurd h (by simp only [List.length_map] at hlen ⊢; omega)
      · rw [hep, hlog, tableOf_values kept hkn]
      · rw [hlog]
  · unfold AgentMemDBDisk.prune_keep_highest_reward
    by_cases hle : s.episodes.length ≤ n
    · rw [if_pos hle]
      exact ⟨fun _ => rfl, fun hne => absurd rfl hne⟩
    · rw [if_neg hle]
      set kept := (((s.episodes.map Prod.snd).insertionSort rewardDescLe).take n)
        with hkept
      obtain ⟨hlog, hcp, hep⟩ := compactTo_spec s kept
      have hkn : (kept.map Episode.id).Nodup := by
        refine (List.Sublist.map Episode.id (List.take_sublist _ _)).nodup ?_
        exact ((List.perm_insertionSort rewardDescLe _).map Episode.id).nodup_iff.2
          hvn
      have hlen : kept.length = n := by
        rw [hkept, List.length_take, List.length_insertionSort, List.length_map]
        omega
      refine ⟨?_, fun _ => ⟨hcp, ?_, ?_⟩⟩
      · intro h
        exact absurd h (by simp only [List.length_map] at hlen ⊢; omega)
      · rw [hep, hlog, tableOf_values kept hkn]
      · rw [hlog]

theorem C7_prune_compaction_witness :
    TableWF ddbA ∧
    ((((ddbA.prune_older_than 1500).1 = 0 →
        (ddbA.prune_older_than 1500).2 = ddbA) ∧
      ((ddbA.prune_older_than 1500).1 ≠ 0 →
        (ddbA.prune_older_than 1500).2.checkpointFile = none ∧
        (ddbA.prune_older_than 1500).2.episodes.map Prod.snd =
          (ddbA.prune_older_than 1500).2.log ∧
        (ddbA.prune_older_than 1500).1 =
          ddbA.episodes.length - (ddbA.prune_older_than 1500).2.log.length)) ∧
     (((ddbA.prune_keep_newest 1).1 = 0 → (ddbA.prune_keep_newest 1).2 = ddbA) ∧
      ((ddbA.prune_keep_newest 1).1 ≠ 0 →
        (ddbA.prune_keep_newest 1).2.checkpointFile = none ∧
        (ddbA.prune_keep_newest 1).2.episodes.map Prod.snd =
          (ddbA.prune_keep_newest 1).2.log ∧
        (ddbA.prune_keep_newest 1).1 =
          ddbA.episodes.length - (ddbA.prune_keep_newest 1).2.log.length)) ∧
     (((ddbA.prune_keep_highest_reward 1).1 = 0 →
        (ddbA.prune_keep_highest_reward 1).2 = ddbA) ∧
      ((ddbA.prune_keep_highest_reward 1).1 ≠ 0 →
        (ddbA.prune_keep_highest_reward 1).2.checkpointFile = none ∧
        (ddbA.prune_keep_highest_reward 1).2.episodes.map Prod.snd =
          (ddbA.prune_keep_highest_reward 1).2.log ∧
        (ddbA.prune_keep_highest_reward 1).1 =
          ddbA.episodes.length -
            (ddbA.prune_keep_highest_reward 1).2.log.length))) :=
  ⟨⟨by decide, by decide⟩, C7_prune_compaction ddbA 1500 1 ⟨by decide, by decide⟩⟩

/-! ## C4: result order and truncation -/

theorem mem_zip_range' {α : Type} : ∀ (l : List α) (s k : Nat) (b : α),
    (k, b) ∈ (List.range' s l.length).zip l → l[k - s]? = some b ∧ s ≤ k := by
  intro l
  induction l with
  | nil => intro s k b h; simp at h
  | cons a l ih =>
    intro s k b h
    rw [List.length_cons, List.range'_succ, List.zip_cons_cons] at h
    rcases List.mem_cons.1 h with heq | hmem
    · obtain ⟨rfl, rfl⟩ := Prod.mk.injEq .. ▸ (Prod.ext_iff.1 heq)
      exact ⟨by rw [Nat.sub_self, List.getElem?_cons_zero], Nat.le_refl _⟩
    · obtain ⟨hget, hle⟩ := ih (s + 1) k b hmem
      have hks : k - s = (k - (s + 1)) + 1 := by omega
      exact ⟨by rw [hks, List.getElem?_cons_succ]; exact hget, by omega⟩

theorem mem_zip_range {α : Type} (l : List α) (k : Nat) (b : α)
    (h : (k, b) ∈ (List.range l.length).zip l) : l[k]? = some b := by
  rw [List.range_eq_range'] at h
  have := (mem_zip_range' l 0 k b h).1
  rwa [Nat.sub_zero] at this

theorem mem_index_search (orc : SearchOracle) (i : IndexBackend) (q : List Int)
    (m k : Nat) (d : Int) (h : (k, d) ∈ i.search orc q m) :
    ∃ v, i.vecs[k]? = some v ∧ d = l2_distance_sq q v := by
  cases i with
  | exact idx =>
    unfold IndexBackend.search ExactIndex.search at h
    have h2 := (List.mem_insertionSort distLe).1 (List.mem_of_mem_take h)
    rw [show idx.vectors.length =
      (idx.vectors.map (fun v => l2_distance_sq q v)).length from
      (List.length_map _ _).symm] at h2
    have h3 := mem_zip_range _ k d h2
    rw [List.getElem?_map] at h3
    obtain ⟨v, hv, hl⟩ := Option.map_eq_some'.1 h3
    exact ⟨v, hv, hl.symm⟩
  | hnsw idx =>
    unfold IndexBackend.search HnswIndex.search at h
    obtain ⟨key, _, hkey⟩ := List.mem_filterMap.1 h
    obtain ⟨v, hv, heq⟩ := Option.map_eq_some'.1 hkey
    obtain ⟨rfl, rfl⟩ := Prod.mk.injEq .. ▸ (Prod.ext_iff.1 heq.symm)
    exact ⟨v, hv, rfl⟩

/-- Every candidate pair the memory pipeline retains carries the true
(squared) distance from the query to its episode's embedding. -/
theorem candidate_dist_char (orc : SearchOracle) (s : AgentMemDB)
    (q : List Int) (opts : QueryOptions) (m : Nat) (hwf : Wf s)
    (c : Int × Episode)
    (hc : c ∈ (s.index.search orc q m).filterMap (fun r =>
      (resolveKey s.key_to_uuid s.episodes r.1).bind (fun ep =>
        if opts.matches ep then some (r.2, ep) else none))) :
    c.1 = distOf q c.2 := by
  obtain ⟨r, hr, hbind⟩ := List.mem_filterMap.1 hc
  obtain ⟨ep', hres, hif⟩ := Option.bind_eq_some.1 hbind
  by_cases hm : opts.matches ep' = true
  · rw [if_pos hm, Option.some.injEq] at hif
    subst hif
    obtain ⟨v, hv, hd⟩ := mem_index_search orc s.index q m r.1 r.2 hr
    obtain ⟨uuid, ep'', hku, hgu, hemb⟩ := hwf r.1 v hv
    have : resolveKey s.key_to_uuid s.episodes r.1 = some ep'' := by
      unfold resolveKey
      rw [hku, Option.some_bind, hgu]
    rw [this, Option.some.injEq] at hres
    subst hres
    show r.2 = distOf q ep''
    rw [hd, distOf, hemb]
  · rw [if_neg hm] at hif
    cases hif

/-- C4 (amended): for a wellformed store, a successful query returns at
most `top_k` episodes, sorted by distance ascending with ties broken by
timestamp descending where an absent timestamp is treated as the
sentinel `i64::MIN` (not −∞: an actual timestamp of `i64::MIN` ties
with absence). -/
theorem C4_sorted_and_truncated (orc : SearchOracle) (s : AgentMemDB)
    (q : List Int) (opts : QueryOptions) (res : List Episode) (hwf : Wf s)
    (h : s.query_similar_with_options orc q opts = .ok res) :
    res.length ≤ opts.top_k ∧ res.Pairwise (ordSentinel q) := by
  unfold AgentMemDB.query_similar_with_options at h
  split at h
  · simp at h
  · rw [Except.ok.injEq] at h
    subst h
    simp only [memPost]
    constructor
    · rw [List.length_map]
      exact List.length_take_le _ _
    · rw [List.pairwise_map]
      refine List.Pairwise.imp_of_mem ?_
        ((List.sorted_insertionSort candLe _).sublist
          (List.take_sublist opts.top_k _))
      intro a b ha hb hab
      have hda : a.1 = distOf q a.2 :=
        candidate_dist_char orc s q opts _ hwf a
          ((List.mem_insertionSort candLe).1 (List.mem_of_mem_take ha))
      have hdb : b.1 = distOf q b.2 :=
        candidate_dist_char orc s q opts _ hwf b
          ((List.mem_insertionSort candLe).1 (List.mem_of_mem_take hb))
      rcases (candLe_iff a b).1 hab with hlt | ⟨heq, hts⟩
      · exact Or.inl (hda ▸ hdb ▸ hlt)
      · exact Or.inr ⟨hda ▸ hdb ▸ heq, hts⟩

theorem wf_of_built (d : Nat) (E : List Episode) (s : AgentMemDB)
    (hb : Built d E s) (hn : (E.map Episode.id).Nodup) : Wf s := by
  obtain ⟨_, hv, hk, he⟩ := hb
  intro k v hget
  rw [hv, List.getElem?_map] at hget
  obtain ⟨ep, hep, hemb⟩ := Option.map_eq_some'.1 hget
  have hmem : ep ∈ E := List.getElem?_mem hep
  refine ⟨ep.id, ep, ?_, ?_, hemb⟩
  · rw [hk, show (List.range E.length) = List.range (E.map Episode.id).length
      from by rw [List.length_map], hmGet_zip_range, List.getElem?_map, hep,
      Option.map_some']
  · rw [he, tableOf_eq_map E hn]
    exact hmGet_map_pair E hn ep hmem

theorem built_mdbA : Built 1 [cxA1, cxA2] mdbA := by
  obtain ⟨s, hst, hb, _, _⟩ := store_episodes_built [cxA1, cxA2] []
    (AgentMemDB.new_exact 1) 1 (built_nil_new_exact 1) (by decide) trivial
  have hs : mdbA = s := by
    unfold mdbA
    rw [hst]
  rw [hs]
  simpa using hb

theorem C4_sorted_and_truncated_witness :
    Wf mdbA ∧
    mdbA.query_similar_with_options orcEmpty [0] (QueryOptions.new 0 2) =
      .ok [cxA2, cxA1] ∧
    (([cxA2, cxA1] : List Episode).length ≤ (QueryOptions.new 0 2).top_k ∧
      ([cxA2, cxA1] : List Episode).Pairwise (ordSentinel [0])) :=
  have hwf : Wf mdbA := wf_of_built 1 [cxA1, cxA2] mdbA built_mdbA (by decide)
  ⟨hwf, by decide,
    C4_sorted_and_truncated orcEmpty mdbA [0] (QueryOptions.new 0 2)
      [cxA2, cxA1] hwf (by decide)⟩

/-- C4, counterexample to the claim as stated: with one episode lacking
a timestamp and one whose timestamp is exactly `i64::MIN`, both at the
same distance, the query returns them in insertion order, which violates
"timestamp descending with absent treated as −∞" (under that reading
the `i64::MIN` episode must precede the absent-timestamp one). -/
theorem C4_spec_order_counterexample :
    mdbB.query_similar_with_options orcEmpty [0] (QueryOptions.new 0 2) =
      .ok [cxB1, cxB2] ∧
    ¬ List.Pairwise (ordSpec [0]) [cxB1, cxB2] := by
  refine ⟨by decide, fun hp => ?_⟩
  have h := List.rel_of_pairwise_cons hp (List.mem_cons_self cxB2 [])
  rcases h with hlt | ⟨_, hle⟩
  · exact absurd hlt (by decide)
  · have hb2 : tsBot cxB2 = ((i64Min : Int) : WithBot Int) := rfl
    have hb1 : tsBot cxB1 = (⊥ : WithBot Int) := rfl
    rw [hb2, hb1] at hle
    simp at hle

/-! ## C1: disk query vs memory query -/

theorem disk_store_episode_toMem (sd : AgentMemDBDisk) (ep : Episode) :
    (sd.store_episode ep).1 = (sd.toMem.store_episode ep).1 ∧
    (sd.store_episode ep).2.toMem = (sd.toMem.store_episode ep).2 := by
  unfold AgentMemDBDisk.store_episode AgentMemDB.store_episode
    AgentMemDBDisk.toMem
  by_cases h : ep.state_embedding.length ≠ sd.dim
  · rw [if_pos h, if_pos h]
    exact ⟨rfl, rfl⟩
  · rw [if_neg h, if_neg h]
    dsimp only
    cases hins : sd.index.insert ep.state_embedding with
    | none => exact ⟨rfl, rfl⟩
    | some r =>
      obtain ⟨key, i'⟩ := r
      exact ⟨rfl, rfl⟩

theorem disk_store_episodes_toMem (L : List Episode) : ∀ (sd : AgentMemDBDisk),
    (sd.store_episodes L).1 = (sd.toMem.store_episodes L).1 ∧
    (sd.store_episodes L).2.toMem = (sd.toMem.store_episodes L).2 := by
  induction L with
  | nil => intro sd; exact ⟨rfl, rfl⟩
  | cons ep rest ih =>
    intro sd
    have h1 := (disk_store_episode_toMem sd ep).1
    have h2 := (disk_store_episode_toMem sd ep).2
    cases hst : sd.store_episode ep with
    | mk st sd' =>
      rw [hst] at h1 h2
      have h1' : st = (sd.toMem.store_episode ep).1 := h1
      have h2' : sd'.toMem = (sd.toMem.store_episode ep).2 := h2
      have hm : sd.toMem.store_episode ep = (st, sd'.toMem) := by
        rw [h1', h2']
      unfold AgentMemDBDisk.store_episodes AgentMemDB.store_episodes
      rw [hst, hm]
      cases st with
      | ok u => exact ih sd'
      | error e => exact ⟨rfl, rfl⟩

theorem open_fresh_exact_toMem (d : Nat) :
    (AgentMemDBDisk.open_fresh (DiskOptions.exact d)).toMem =
      AgentMemDB.new_exact d := by
  simp [AgentMemDBDisk.open_fresh, DiskOptions.exact, AgentMemDBDisk.toMem,
    AgentMemDB.new_exact, ExactIndex.new]

/-- Splitting the memory pipeline's candidate construction into
resolution followed by the match filter. -/
theorem filterMap_match_eq_filter (results : List (Nat × Int))
    (ρ : Nat → Option Episode) (mtch : Episode → Bool) :
    results.filterMap (fun r => (ρ r.1).bind (fun ep =>
      if mtch ep then some (r.2, ep) else none)) =
    (results.filterMap (fun r => (ρ r.1).map (fun ep => (r.2, ep)))).filter
      (fun c => mtch c.2) := by
  induction results with
  | nil => rfl
  | cons r rest ih =>
    rw [List.filterMap_cons, List.filterMap_cons]
    cases hres : ρ r.1 with
    | none => simpa using ih
    | some ep =>
      simp only [Option.some_bind, Option.map_some']
      by_cases hm : mtch ep = true
      · rw [if_pos hm, List.filter_cons]
        simp only [hm, if_true, ih]
      · rw [if_neg hm, List.filter_cons]
        simp only [hm, if_false, ih]
        simp

theorem map_snd_filterMap_pair (results : List (Nat × Int))
    (ρ : Nat → Option Episode) :
    (results.filterMap (fun r => (ρ r.1).map (fun ep => (r.2, ep)))).map
      Prod.snd = results.filterMap (fun r => ρ r.1) := by
  induction results with
  | nil => rfl
  | cons r rest ih =>
    rw [List.filterMap_cons, List.filterMap_cons]
    cases hres : ρ r.1 with
    | none => simpa using ih
    | some ep => simp only [Option.map_some', List.map_cons, ih]

/-- Pairs produced by resolving a search result keep the search
distance in the first component. -/
theorem resolved_pair_fst (r : Nat × Int) (ρ : Nat → Option Episode)
    (c : Int × Episode) (h : c ∈ ((ρ r.1).map (fun ep => (r.2, ep)))) :
    c.1 = r.2 := by
  cases hres : ρ r.1 with
  | none => rw [hres] at h; cases h
  | some ep =>
    rw [hres, Option.map_some', Option.mem_def, Option.some.injEq] at h
    rw [← h]

/-- The exact-backend search output has strictly increasing distances
when the stored vectors' distances to the query are pairwise distinct. -/
theorem exact_search_strict (vectors : List (List Int)) (q : List Int) (m : Nat)
    (hdist : (vectors.map (fun v => l2_distance_sq q v)).Pairwise (· ≠ ·)) :
    ((ExactIndex.mk vectors).search q m).Pairwise (fun a b => a.2 < b.2) := by
  unfold ExactIndex.search
  have hle : ((ExactIndex.mk vectors).search q m).Pairwise distLe :=
    (List.sorted_insertionSort distLe _).sublist (List.take_sublist m _)
  unfold ExactIndex.search at hle
  have hzip : ((List.range vectors.length).zip
      (vectors.map (fun v => l2_distance_sq q v))).Pairwise
        (fun a b => a.2 ≠ b.2) := by
    have hm : ((List.range vectors.length).zip
        (vectors.map (fun v => l2_distance_sq q v))).map Prod.snd =
        vectors.map (fun v => l2_distance_sq q v) :=
      List.map_snd_zip _ _ (by simp)
    have := hm ▸ hdist
    exact List.pairwise_map.1 this
  have hsorted : (((List.range vectors.length).zip
      (vectors.map (fun v => l2_distance_sq q v))).insertionSort
        distLe).Pairwise (fun a b => a.2 ≠ b.2) :=
    (List.Perm.pairwise_iff (fun h => Ne.symm h)
      (List.perm_insertionSort distLe _)).2 hzip
  have htake := hsorted.sublist (List.take_sublist m _)
  refine (hle.and htake).imp ?_
  intro a b hab
  exact lt_of_le_of_ne ((distLe_iff a b).1 hab.1) hab.2

theorem candidateMult_eq_disk (opts : QueryOptions)
    (h1 : opts.tags_all = none) (h2 : opts.task_id_pre = none)
    (h3 : opts.source = none) (h4 : opts.user_id = none) :
    candidateMult opts = candidateMultDisk opts := by
  unfold candidateMult candidateMultDisk
  rw [h1, h2, h3, h4]
  simp

/-- When the search output has strictly increasing distances, the memory
pipeline's re-sort is the identity and its result coincides with the
disk pipeline applied to the same search output. -/
theorem post_eq_of_strict (search : List (Nat × Int)) (km : List (Nat × Nat))
    (tbl : List (Nat × Episode)) (opts : QueryOptions)
    (hstrict : search.Pairwise (fun a b => a.2 < b.2)) :
    (((search.filterMap (fun r => (resolveKey km tbl r.1).bind (fun ep =>
        if opts.matches ep then some (r.2, ep) else none))).insertionSort
          candLe).take opts.top_k).map (fun c => c.2) =
    ((search.filterMap (fun r => resolveKey km tbl r.1)).filter
        (fun ep => opts.matches ep)).take opts.top_k := by
  have hcand := filterMap_match_eq_filter search
    (fun k => resolveKey km tbl k) (fun ep => opts.matches ep)
  have hRstrict : (search.filterMap (fun r =>
      (resolveKey km tbl r.1).map (fun ep => (r.2, ep)))).Pairwise
        (fun a b => a.1 < b.1) := by
    refine List.Pairwise.filterMap _ ?_ hstrict
    intro a a' hlt x hx y hy
    rw [resolved_pair_fst a _ x hx, resolved_pair_fst a' _ y hy]
    exact hlt
  have hfil : ((search.filterMap (fun r =>
      (resolveKey km tbl r.1).map (fun ep => (r.2, ep)))).filter
        (fun c => opts.matches c.2)).Pairwise (fun a b => a.1 < b.1) :=
    hRstrict.sublist (List.filter_sublist _)
  have hle : ((search.filterMap (fun r =>
      (resolveKey km tbl r.1).map (fun ep => (r.2, ep)))).filter
        (fun c => opts.matches c.2)).Pairwise candLe :=
    hfil.imp (fun h => (candLe_iff _ _).2 (Or.inl h))
  rw [hcand, List.Sorted.insertionSort_eq hle, List.map_take]
  congr 1
  rw [show (fun (c : Int × Episode) => c.2) = Prod.snd from rfl,
    ← map_snd_filterMap_pair search (fun k => resolveKey km tbl k),
    List.filter_map]
  rfl

/-- C1 (amended): for stores holding the same episode sequence over the
exact backend, a query whose options set none of the filters the two
multiplier gates disagree on (tags_all, task_id_prefix, source,
user_id) and whose distances to the stored embeddings are pairwise
distinct, the disk store returns the same episodes in the same order as
the memory store. -/
theorem C1_disk_query_eq_memory_query (orc : SearchOracle) (d : Nat)
    (E : List Episode) (q : List Int) (opts : QueryOptions) (ms : AgentMemDB)
    (ds : AgentMemDBDisk)
    (hE : ∀ ep ∈ E, ep.state_embedding.length = d)
    (hms : (AgentMemDB.new_exact d).store_episodes E = (.ok (), ms))
    (hds : (AgentMemDBDisk.open_fresh (DiskOptions.exact d)).store_episodes E =
      (.ok (), ds))
    (hq : q.length = d)
    (h1 : opts.tags_all = none) (h2 : opts.task_id_pre = none)
    (h3 : opts.source = none) (h4 : opts.user_id = none)
    (hdist : (E.map (fun ep => distOf q ep)).Pairwise (· ≠ ·)) :
    ds.query_similar_with_options orc q opts =
      ms.query_similar_with_options orc q opts := by
  -- the two stores share their in-memory components
  have htrans := (disk_store_episodes_toMem E
    (AgentMemDBDisk.open_fresh (DiskOptions.exact d))).2
  rw [hds, open_fresh_exact_toMem d, hms] at htrans
  have heq : ds.toMem = ms := htrans
  have hdim : ds.dim = ms.dim := congrArg AgentMemDB.dim heq
  have heps : ds.episodes = ms.episodes := congrArg AgentMemDB.episodes heq
  have hidx : ds.index = ms.index := congrArg AgentMemDB.index heq
  have hkm : ds.key_to_uuid = ms.key_to_uuid := congrArg AgentMemDB.key_to_uuid heq
  -- characterise the memory store
  obtain ⟨s, hst, hb, hex, _⟩ := store_episodes_built E [] (AgentMemDB.new_exact d)
    d (built_nil_new_exact d) hE trivial
  have hsm : ms = s := congrArg Prod.snd (hms.symm.trans hst)
  subst hsm
  have hb' : Built d E ms := by simpa using hb
  have hdm : ms.dim = d := hb'.1
  have hexact : ms.index = .exact ⟨E.map Episode.state_embedding⟩ := by
    have h := index_eq_exact_of_isExactB ms.index hex
    rw [h, hb'.2.1]
  -- unfold both queries
  unfold AgentMemDBDisk.query_similar_with_options
    AgentMemDB.query_similar_with_options
  rw [if_neg (by simp [hq, hdim, hdm]), if_neg (by simp [hq, hdm])]
  rw [candidateMult_eq_disk opts h1 h2 h3 h4] at *
  unfold diskPost memPost
  rw [hidx, hkm, heps]
  congr 1
  have hstrict : (ms.index.search orc q
      (opts.top_k * candidateMultDisk opts)).Pairwise
        (fun a b => a.2 < b.2) := by
    rw [hexact]
    show ((ExactIndex.mk (E.map Episode.state_embedding)).search q
      (opts.top_k * candidateMultDisk opts)).Pairwise (fun a b => a.2 < b.2)
    refine exact_search_strict _ q _ ?_
    rw [List.map_map]
    simpa [Function.comp, distOf] using hdist
  exact (post_eq_of_strict _ ms.key_to_uuid ms.episodes opts hstrict).symm

/-- C1, counterexample to the claim as stated: two stores holding the
same two episodes (identical embeddings, timestamps 1000 and 2000) over
the exact backend, with no filters set.  The memory store re-sorts the
tied candidates by timestamp descending; the disk store does not sort,
so the two queries return the episodes in opposite orders. -/
theorem C1_disk_query_counterexample :
    ddbA.toMem = mdbA ∧
    ddbA.query_similar_with_options orcEmpty [0] (QueryOptions.new 0 2) ≠
      mdbA.query_similar_with_options orcEmpty [0] (QueryOptions.new 0 2) := by
  decide

theorem C1_disk_query_eq_memory_query_witness :
    ((∀ ep ∈ [cxC1, Episode.new 2 [] [1] 0],
        ep.state_embedding.length = 1) ∧
      ([(0 : Int)].length = 1) ∧
      (([cxC1, Episode.new 2 [] [1] 0].map
        (fun ep => distOf [0] ep)).Pairwise (· ≠ ·))) ∧
    ((((AgentMemDBDisk.open_fresh (DiskOptions.exact 1)).store_episodes
        [cxC1, Episode.new 2 [] [1] 0]).2).query_similar_with_options orcEmpty
        [0] (QueryOptions.new 0 2) =
      (((AgentMemDB.new_exact 1).store_episodes
        [cxC1, Episode.new 2 [] [1] 0]).2).query_similar_with_options orcEmpty
        [0] (QueryOptions.new 0 2)) :=
  ⟨⟨by decide, by decide, by decide⟩,
    C1_disk_query_eq_memory_query orcEmpty 1 [cxC1, Episode.new 2 [] [1] 0]
      [0] (QueryOptions.new 0 2) _ _ (by decide) (by decide) (by decide)
      (by decide) (by decide) (by decide) (by decide) (by decide) (by decide)⟩

/-! ## C9: save / load round trip -/

theorem sort_strict (vectors : List (List Int)) (q : List Int)
    (hdist : (vectors.map (fun v => l2_distance_sq q v)).Pairwise (· ≠ ·)) :
    (((List.range vectors.length).zip (vectors.map (fun v =>
      l2_distance_sq q v))).insertionSort distLe).Pairwise
        (fun a b => a.2 < b.2) := by
  have hle : (((List.range vectors.length).zip (vectors.map (fun v =>
      l2_distance_sq q v))).insertionSort distLe).Pairwise distLe :=
    List.sorted_insertionSort distLe _
  have hzip : ((List.range vectors.length).zip
      (vectors.map (fun v => l2_distance_sq q v))).Pairwise
        (fun a b => a.2 ≠ b.2) := by
    have hm : ((List.range vectors.length).zip
        (vectors.map (fun v => l2_distance_sq q v))).map Prod.snd =
        vectors.map (fun v => l2_distance_sq q v) :=
      List.map_snd_zip _ _ (by simp)
    have hms := hm ▸ hdist
    exact List.pairwise_map.1 hms
  have hsorted := (List.Perm.pairwise_iff (fun h => Ne.symm h)
    (List.perm_insertionSort distLe _)).2 hzip
  exact (hle.and hsorted).imp
    (fun hab => lt_of_le_of_ne ((distLe_iff _ _).1 hab.1) hab.2)

theorem filterMap_take_total {α β : Type} (f : α → Option β) :
    ∀ (l : List α) (m : Nat), (∀ a ∈ l, (f a).isSome = true) →
    (l.take m).filterMap f = (l.filterMap f).take m := by
  intro l
  induction l with
  | nil => intro m _; simp
  | cons a l ih =>
    intro m hall
    cases m with
    | zero => simp
    | succ m =>
      rw [List.take_succ_cons, List.filterMap_cons, List.filterMap_cons]
      cases hfa : f a with
      | none =>
        have := hall a (List.mem_cons_self a l)
        rw [hfa] at this
        cases this
      | some b =>
        rw [List.take_succ_cons,
          ih m (fun x hx => hall x (List.mem_cons_of_mem _ hx))]

theorem resolve_built (d : Nat) (E : List Episode) (s : AgentMemDB)
    (hb : Built d E s) (hn : (E.map Episode.id).Nodup) (k : Nat) (ep : Episode)
    (hk : E[k]? = some ep) :
    resolveKey s.key_to_uuid s.episodes k = some ep := by
  obtain ⟨_, _, hkm, he⟩ := hb
  unfold resolveKey
  rw [hkm, show List.range E.length = List.range (E.map Episode.id).length
      from by rw [List.length_map], hmGet_zip_range, List.getElem?_map, hk,
    Option.map_some', Option.some_bind, he, tableOf_eq_map E hn]
  exact hmGet_map_pair E hn ep (List.getElem?_mem hk)

theorem filterMap_resolve_zip (d : Nat) (s : AgentMemDB) (q : List Int) :
    ∀ (E₁ E₀ : List Episode), Built d (E₀ ++ E₁) s →
    (((E₀ ++ E₁).map Episode.id).Nodup) →
    ((List.range' E₀.length E₁.length).zip
      ((E₁.map Episode.state_embedding).map (fun v =>
        l2_distance_sq q v))).filterMap (fun r =>
      (resolveKey s.key_to_uuid s.episodes r.1).map (fun ep => (r.2, ep))) =
    E₁.map (fun ep => (distOf q ep, ep)) := by
  intro E₁
  induction E₁ with
  | nil => intro E₀ _ _; simp
  | cons ep E₁ ih =>
    intro E₀ hb hn
    rw [List.map_cons, List.map_cons, List.map_cons, List.length_cons,
      List.range'_succ, List.zip_cons_cons, List.filterMap_cons]
    have hres : resolveKey s.key_to_uuid s.episodes E₀.length = some ep := by
      refine resolve_built d (E₀ ++ ep :: E₁) s hb hn E₀.length ep ?_
      rw [List.getElem?_append_right (Nat.le_refl _), Nat.sub_self]
      simp
    rw [hres, Option.map_some']
    have hba : Built d ((E₀ ++ [ep]) ++ E₁) s := by
      rw [List.append_assoc]
      simpa using hb
    have hna : (((E₀ ++ [ep]) ++ E₁).map Episode.id).Nodup := by
      rw [List.append_assoc]
      simpa using hn
    have hrec := ih (E₀ ++ [ep]) hba hna
    rw [List.length_append, List.length_singleton] at hrec
    rw [hrec]
    rfl

/-- The memory pipeline over a truncated search list, re-expressed over
the fully resolved pair list, when every key in the search list
resolves. -/
theorem memPost_eq_pipeline (s : AgentMemDB) (opts : QueryOptions)
    (sfull : List (Nat × Int)) (m : Nat)
    (htot : ∀ r ∈ sfull,
      (resolveKey s.key_to_uuid s.episodes r.1).isSome = true) :
    memPost s opts (sfull.take m) =
      (((((sfull.filterMap (fun r => (resolveKey s.key_to_uuid s.episodes
        r.1).map (fun ep => (r.2, ep)))).take m).filter
          (fun c => opts.matches c.2)).insertionSort candLe).take
            opts.top_k).map (fun c => c.2) := by
  unfold memPost
  rw [filterMap_match_eq_filter (sfull.take m)
    (fun k => resolveKey s.key_to_uuid s.episodes k) (fun ep => opts.matches ep)]
  rw [filterMap_take_total _ sfull m ?_]
  intro r hr
  cases hres : resolveKey s.key_to_uuid s.episodes r.1 with
  | none =>
    have := htot r hr
    rw [hres] at this
    cases this
  | some ep => simp

theorem query_eq_of_built_perm (orc : SearchOracle) (d : Nat)
    (E O : List Episode) (q : List Int) (opts : QueryOptions)
    (ms ls : AgentMemDB)
    (hbE : Built d E ms) (hexE : ms.index.isExactB = true)
    (hbO : Built d O ls) (hexO : ls.index.isExactB = true)
    (hnE : (E.map Episode.id).Nodup)
    (hperm : O.Perm E) (hq : q.length = d)
    (hdist : (E.map (fun ep => distOf q ep)).Pairwise (· ≠ ·)) :
    ls.query_similar_with_options orc q opts =
      ms.query_similar_with_options orc q opts := by
  have hnO : (O.map Episode.id).Nodup := ((hperm.map Episode.id).nodup_iff).2 hnE
  have hexactE : ms.index = .exact ⟨E.map Episode.state_embedding⟩ := by
    rw [index_eq_exact_of_isExactB ms.index hexE, hbE.2.1]
  have hexactO : ls.index = .exact ⟨O.map Episode.state_embedding⟩ := by
    rw [index_eq_exact_of_isExactB ls.index hexO, hbO.2.1]
  unfold AgentMemDB.query_similar_with_options
  rw [if_neg (by simp [hq, hbO.1]), if_neg (by simp [hq, hbE.1])]
  set m := opts.top_k * candidateMult opts with hmdef
  have hsE : ms.index.search orc q m =
      ((((List.range (E.map Episode.state_embedding).length).zip
        ((E.map Episode.state_embedding).map (fun v =>
          l2_distance_sq q v))).insertionSort distLe).take m) := by
    rw [hexactE]
    rfl
  have hsO : ls.index.search orc q m =
      ((((List.range (O.map Episode.state_embedding).length).zip
        ((O.map Episode.state_embedding).map (fun v =>
          l2_distance_sq q v))).insertionSort distLe).take m) := by
    rw [hexactO]
    rfl
  have htotE : ∀ r ∈ (((List.range (E.map Episode.state_embedding).length).zip
      ((E.map Episode.state_embedding).map (fun v =>
        l2_distance_sq q v))).insertionSort distLe),
      (resolveKey ms.key_to_uuid ms.episodes r.1).isSome = true := by
    rintro ⟨k, dd⟩ hr
    have hrz := (List.mem_insertionSort distLe).1 hr
    have hk := (List.of_mem_zip hrz).1
    rw [List.length_map] at hk
    have hklt : k < E.length := List.mem_range.1 hk
    have hget : E[k]? = some (E.get ⟨k, hklt⟩) :=
      List.getElem?_eq_some_iff.2 ⟨hklt, rfl⟩
    rw [resolve_built d E ms hbE hnE k _ hget]
    rfl
  have htotO : ∀ r ∈ (((List.range (O.map Episode.state_embedding).length).zip
      ((O.map Episode.state_embedding).map (fun v =>
        l2_distance_sq q v))).insertionSort distLe),
      (resolveKey ls.key_to_uuid ls.episodes r.1).isSome = true := by
    rintro ⟨k, dd⟩ hr
    have hrz := (List.mem_insertionSort distLe).1 hr
    have hk := (List.of_mem_zip hrz).1
    rw [List.length_map] at hk
    have hklt : k < O.length := List.mem_range.1 hk
    have hget : O[k]? = some (O.get ⟨k, hklt⟩) :=
      List.getElem?_eq_some_iff.2 ⟨hklt, rfl⟩
    rw [resolve_built d O ls hbO hnO k _ hget]
    rfl
  rw [hsE, hsO, memPost_eq_pipeline ms opts _ m htotE,
    memPost_eq_pipeline ls opts _ m htotO]
  have hdistO : (O.map (fun ep => distOf q ep)).Pairwise (· ≠ ·) :=
    (List.Perm.pairwise_iff (fun h => Ne.symm h) (hperm.map _)).2 hdist
  have hpermE : ((((List.range (E.map Episode.state_embedding).length).zip
      ((E.map Episode.state_embedding).map (fun v =>
        l2_distance_sq q v))).insertionSort distLe).filterMap (fun r =>
      (resolveKey ms.key_to_uuid ms.episodes r.1).map
        (fun ep => (r.2, ep)))).Perm
      (E.map (fun ep => (distOf q ep, ep))) := by
    refine ((List.perm_insertionSort distLe _).filterMap _).trans ?_
    rw [show List.range (E.map Episode.state_embedding).length =
      List.range' ([] : List Episode).length E.length from by
        rw [List.length_map, List.range_eq_range']
        rfl,
      filterMap_resolve_zip d ms q E [] (by simpa using hbE)
        (by simpa using hnE)]
  have hpermO : ((((List.range (O.map Episode.state_embedding).length).zip
      ((O.map Episode.state_embedding).map (fun v =>
        l2_distance_sq q v))).insertionSort distLe).filterMap (fun r =>
      (resolveKey ls.key_to_uuid ls.episodes r.1).map
        (fun ep => (r.2, ep)))).Perm
      (O.map (fun ep => (distOf q ep, ep))) := by
    refine ((List.perm_insertionSort distLe _).filterMap _).trans ?_
    rw [show List.range (O.map Episode.state_embedding).length =
      List.range' ([] : List Episode).length O.length from by
        rw [List.length_map, List.range_eq_range']
        rfl,
      filterMap_resolve_zip d ls q O [] (by simpa using hbO)
        (by simpa using hnO)]
  have hstrictE : ((((List.range (E.map Episode.state_embedding).length).zip
      ((E.map Episode.state_embedding).map (fun v =>
        l2_distance_sq q v))).insertionSort distLe).filterMap (fun r =>
      (resolveKey ms.key_to_uuid ms.episodes r.1).map
        (fun ep => (r.2, ep)))).Pairwise (fun a b => a.1 < b.1) := by
    refine List.Pairwise.filterMap _ ?_
      (sort_strict (E.map Episode.state_embedding) q ?_)
    · intro a a' hlt x hx y hy
      rw [resolved_pair_fst a _ x hx, resolved_pair_fst a' _ y hy]
      exact hlt
    · rw [List.map_map]
      simpa [Function.comp, distOf] using hdist
  have hstrictO : ((((List.range (O.map Episode.state_embedding).length).zip
      ((O.map Episode.state_embedding).map (fun v =>
        l2_distance_sq q v))).insertionSort distLe).filterMap (fun r =>
      (resolveKey ls.key_to_uuid ls.episodes r.1).map
        (fun ep => (r.2, ep)))).Pairwise (fun a b => a.1 < b.1) := by
    refine List.Pairwise.filterMap _ ?_
      (sort_strict (O.map Episode.state_embedding) q ?_)
    · intro a a' hlt x hx y hy
      rw [resolved_pair_fst a _ x hx, resolved_pair_fst a' _ y hy]
      exact hlt
    · rw [List.map_map]
      simpa [Function.comp, distOf] using hdistO
  haveI : IsAntisymm (Int × Episode) (fun a b => a.1 < b.1) :=
    ⟨fun a b h1 h2 => absurd h2 (not_lt_of_gt h1)⟩
  have hReq := List.eq_of_perm_of_sorted
    (hpermO.trans ((hperm.map (fun ep => (distOf q ep, ep))).trans hpermE.symm))
    hstrictO hstrictE
  rw [hReq]

/-- C9 (amended): for a store built from episodes with distinct ids over
the Exact backend, saving (in any iteration order of the table — the
Rust HashMap order is unspecified) and reloading with
`load_from_file_exact` preserves the result of any query of matching
dimension whose distances to the stored embeddings are pairwise
distinct: the loaded store returns the same episodes in the same order,
in particular the same set of episode ids. -/
theorem C9_saveload_preserves_query (orc : SearchOracle) (d : Nat)
    (E O : List Episode) (q : List Int) (opts : QueryOptions)
    (ms ls : AgentMemDB)
    (hn : (E.map Episode.id).Nodup)
    (hE : ∀ ep ∈ E, ep.state_embedding.length = d)
    (hms : (AgentMemDB.new_exact d).store_episodes E = (.ok (), ms))
    (hperm : O.Perm (ms.episodes.map Prod.snd))
    (hload : AgentMemDB.load_from_file_exact (ms.save_to_file O) = .ok ls)
    (hq : q.length = d)
    (hdist : (E.map (fun ep => distOf q ep)).Pairwise (· ≠ ·)) :
    ls.query_similar_with_options orc q opts =
      ms.query_similar_with_options orc q opts ∧
    (ls.query_similar_with_options orc q opts).map (List.map Episode.id) =
      (ms.query_similar_with_options orc q opts).map (List.map Episode.id) := by
  obtain ⟨s, hst, hb, hex, _⟩ := store_episodes_built E [] (AgentMemDB.new_exact d)
    d (built_nil_new_exact d) hE trivial
  have hsm : ms = s := congrArg Prod.snd (hms.symm.trans hst)
  subst hsm
  have hbE : Built d E ms := by simpa using hb
  have hvals : ms.episodes.map Prod.snd = E := by
    rw [hbE.2.2.2, tableOf_values E hn]
  have hpermE : O.Perm E := hvals ▸ hperm
  have hOlen : ∀ ep ∈ O, ep.state_embedding.length = d :=
    fun ep hep => hE ep (hpermE.mem_iff.1 hep)
  obtain ⟨s', hst', hb', hex', _⟩ := store_episodes_built O []
    (AgentMemDB.new_exact d) d (built_nil_new_exact d) hOlen trivial
  unfold AgentMemDB.load_from_file_exact AgentMemDB.load_from_file_with_index
    AgentMemDB.save_to_file at hload
  rw [hbE.1] at hload
  simp only [if_true] at hload
  rw [hst'] at hload
  simp only [Except.ok.injEq] at hload
  subst hload
  have heq := query_eq_of_built_perm orc d E O q opts ms s' hbE hex
    (by simpa using hb') hex' hn hpermE hq hdist
  exact ⟨heq, by rw [heq]⟩

/-- C9, counterexample to the claim as stated: three episodes with
identical embeddings, queried with `top_k = 1`.  Saving in the reversed
table order (a legal iteration order of the Rust `HashMap`) and
reloading changes the insertion order, so the tie at the candidate
truncation boundary resolves differently: the original store answers
with id 1, the reloaded store with id 3. -/
theorem C9_saveload_counterexample :
    List.Perm [cxC3, cxC2, cxC1] (mdbC.episodes.map Prod.snd) ∧
    mdbC.query_similar_with_options orcEmpty [0] (QueryOptions.new 0 1) =
      .ok [cxC1] ∧
    (AgentMemDB.load_from_file_exact
      (mdbC.save_to_file [cxC3, cxC2, cxC1])).map
        (fun db => db.query_similar_with_options orcEmpty [0]
          (QueryOptions.new 0 1)) = .ok (.ok [cxC3]) ∧
    cxC3.id ∈ ([cxC3].map Episode.id) ∧ cxC3.id ∉ ([cxC1].map Episode.id) := by
  decide

theorem C9_saveload_preserves_query_witness :
    ((([cxC1, Episode.new 2 [] [1] 0].map Episode.id).Nodup) ∧
      (∀ ep ∈ [cxC1, Episode.new 2 [] [1] 0],
        ep.state_embedding.length = 1) ∧
      List.Perm [Episode.new 2 [] [1] 0, cxC1]
        ((((AgentMemDB.new_exact 1).store_episodes
          [cxC1, Episode.new 2 [] [1] 0]).2).episodes.map Prod.snd) ∧
      ([(0 : Int)].length = 1) ∧
      (([cxC1, Episode.new 2 [] [1] 0].map
        (fun ep => distOf [0] ep)).Pairwise (· ≠ ·))) ∧
    ((((AgentMemDB.new_exact 1).store_episodes
        [Episode.new 2 [] [1] 0, cxC1]).2).query_similar_with_options orcEmpty
        [0] (QueryOptions.new 0 2) =
      (((AgentMemDB.new_exact 1).store_episodes
        [cxC1, Episode.new 2 [] [1] 0]).2).query_similar_with_options orcEmpty
        [0] (QueryOptions.new 0 2) ∧
     ((((AgentMemDB.new_exact 1).store_episodes
        [Episode.new 2 [] [1] 0, cxC1]).2).query_similar_with_options orcEmpty
        [0] (QueryOptions.new 0 2)).map (List.map Episode.id) =
      ((((AgentMemDB.new_exact 1).store_episodes
        [cxC1, Episode.new 2 [] [1] 0]).2).query_similar_with_options orcEmpty
        [0] (QueryOptions.new 0 2)).map (List.map Episode.id)) :=
  ⟨⟨by decide, by decide, by decide, by decide, by decide⟩,
    C9_saveload_preserves_query orcEmpty 1 [cxC1, Episode.new 2 [] [1] 0]
      [Episode.new 2 [] [1] 0, cxC1] [0] (QueryOptions.new 0 2)
      (((AgentMemDB.new_exact 1).store_episodes
        [cxC1, Episode.new 2 [] [1] 0]).2)
      (((AgentMemDB.new_exact 1).store_episodes
        [Episode.new 2 [] [1] 0, cxC1]).2)
      (by decide) (by decide) (by decide) (by decide) (by decide) (by decide)
      (by decide)⟩
